import Mathlib

/-!
Verification development for the table-layout core of `keys_2_schema.py`
(the complete, bidirectional variant under `1-python/`).

The Python source is shallowly embedded below.  Conventions used throughout:

* Python `dict`s of tables are embedded as lists of `TableObj` in insertion
  order; table names are unique in a run (dict keys), which appears as a
  `Nodup` hypothesis where a theorem needs it.
* Python object mutation is embedded as explicit state passing; a "Table
  object" shared between `self.tables` and `table_of_tables` entries is
  embedded by storing tables once in the state and letting entries refer to
  them by name.
* Python `set` iteration order is unspecified (hash order); the embedding of
  `get_connected_tables` (`list(set(..))`) uses first-occurrence
  deduplication.  Every theorem below either does not depend on that order or
  quantifies over the relevant data.
* The expanding-ring searches compute `int(anchor + radius * cos(angle))` in
  IEEE-754 double precision.  Exact binary floating point trigonometry is not
  representable in this shallow embedding, so the probe-point computation is a
  parameter `trig : Int → Int → Int → Int → Int × Int` of the layout run
  (arguments: anchor_x, anchor_y, radius, angle; result: the truncated probe
  point).  Everything else about the searches (the radius/angle iteration
  ranges, the bounds checks, the freeness test, the canvas-growth fallbacks)
  is embedded exactly.  Theorems about concrete runs are arranged so that the
  result provably does not depend on `trig` (the bounds checks reject every
  probe), or hold for every `trig`.
* Fields of the source that only feed `print` calls or the XML serializer
  (`connections_str`, `single_children_str`, column datatype attributes, ids)
  are omitted; they are never read by the layout logic.
* Functions of the source that are unreachable from
  `position_tables_intelligently` (`position_table_near_connections`,
  `find_available_space`, `calculate_overlap_score`,
  `find_best_stack_direction`, `update_occupied_area_for_table`,
  `calculate_total_connection_length`, CSV/XML I/O) are not part of any claim
  and are not embedded.
-/

namespace SqlDesigner

/-! ### Generic list helpers (Python building blocks) -/

/-- Python `range(start, stop, step)` with a positive `step`, as a list of
integers: `start, start+step, ...` strictly below `stop`. -/
def rangeUp (start stop step : Int) : List Int :=
  (List.range (((stop - start).toNat + step.toNat - 1) / step.toNat)).map
    (fun i => start + step * (i : Int))

/-- Python `range(start, stop, -step)` with `step > 0` given as a magnitude:
`start, start-step, ...` strictly above `stop`. -/
def rangeDown (start stop step : Int) : List Int :=
  (List.range (((start - stop).toNat + step.toNat - 1) / step.toNat)).map
    (fun i => start - step * (i : Int))

/-- Code-point lexicographic comparison of character lists, the order Python
uses for `str` comparison. -/
def lexLt : List Char → List Char → Bool
  | [], [] => false
  | [], _ :: _ => true
  | _ :: _, [] => false
  | a :: as, b :: bs =>
    if a.toNat < b.toNat then true
    else if a.toNat = b.toNat then lexLt as bs
    else false

/-- Python string `<` (code-point lexicographic). -/
def strLt (a b : String) : Bool := lexLt a.data b.data

/-- Insert `x` into a list before the first element `y` with `lt x y`;
together with `sortByLt` this is a stable sort, matching Python `list.sort`
semantics for a strict comparator. -/
def insertOrd (lt : α → α → Bool) (x : α) : List α → List α
  | [] => [x]
  | y :: ys => if lt x y then x :: y :: ys else y :: insertOrd lt x ys

/-- Stable sort by a strict comparator (left fold of ordered insertion),
embedding Python `list.sort(key=...)`. -/
def sortByLt (lt : α → α → Bool) (l : List α) : List α :=
  l.foldl (fun acc x => insertOrd lt x acc) []

/-- First-occurrence deduplication; embeds the *set* of elements produced by
Python `list(set(l))` (whose order is unspecified). -/
def firstDedup (l : List String) : List String :=
  l.foldl (fun acc x => if x ∈ acc then acc else acc ++ [x]) []

/-- Fuel-bounded iteration of a step function; `step s = none` means the
loop's exit condition fired at `s`.  Embeds a Python `while` loop, with
separate theorems showing the fuel used is sufficient. -/
def fuelLoop (step : σ → Option σ) : Nat → σ → σ
  | 0, s => s
  | n + 1, s =>
    match step s with
    | none => s
    | some s2 => fuelLoop step n s2

/-! ### Data model: `Column`, `Table` -/

/-- One column of a table.  `foreign_keys` is the list of
`(referenced_table, referenced_column)` pairs, in insertion order.
(Datatype/null/autoincrement/default attributes only feed the XML output and
are omitted.) -/
structure Column where
  name : String
  is_primary : Bool := false
  is_foreign : Bool := false
  foreign_keys : List (String × String) := []
deriving DecidableEq, Repr

/-- A table, embedding class `Table`: columns in dict insertion order
(column names unique), mutable geometry and connection counters. -/
structure TableObj where
  name : String
  columns : List Column := []
  primary_keys : List (String × Int) := []
  x : Int := 100
  y : Int := 100
  width : Int := 0
  height : Int := 0
  connections : Nat := 0
  incoming_connections : Nat := 0
  outgoing_connections : Nat := 0
  is_positioned : Bool := false
deriving DecidableEq, Repr

/-- The longest text a table has to render: the maximum of the table-name
length and every column-name length (`Table.calculate_dimensions`, loop over
`self.columns`). -/
def maxTextLength (t : TableObj) : Nat :=
  t.columns.foldl (fun m c => max m c.name.length) t.name.length

/-- `Table.calculate_dimensions`.  The source computes
`width = max(140, max_text_length * 9.0 + 24)` and
`height = 28 + n_cols * 18 + 12` in IEEE-754 doubles and then rounds both
with `int(v + 0.5)`.  Every intermediate float here is an exactly
representable integer (`char_width = 9.0` times an integer, plus integers),
so the embedding computes the same values in exact integer arithmetic; the
`int(v + 0.5)` rounding of an integer-valued `v` is written as
`⌊(2v + 1) / 2⌋` (floor division), which a theorem below shows to be the
identity. -/
def calculate_dimensions (t : TableObj) : TableObj :=
  let char_width : Int := 9
  let row_height : Int := 18
  let header_height : Int := 28
  let min_width : Int := 140
  let padding_width : Int := 24
  let padding_height : Int := 12
  let maxText : Int := (maxTextLength t : Int)
  let widthF : Int := max min_width (maxText * char_width + padding_width)
  let heightF : Int := header_height + (t.columns.length : Int) * row_height + padding_height
  { t with width := (2 * widthF + 1).fdiv 2, height := (2 * heightF + 1).fdiv 2 }

/-- The multiset of tables referenced by a table's foreign keys, in
column/insertion order (before the `set(..)` deduplication). -/
def refTables (t : TableObj) : List String :=
  (t.columns.map (fun c => c.foreign_keys.map Prod.fst)).flatten

/-- `Table.get_connected_tables`: `list(set(referenced tables))`.  Embedded
with first-occurrence order (Python set order is unspecified; no theorem
below depends on the order). -/
def get_connected_tables (t : TableObj) : List String :=
  firstDedup (refTables t)

/-- `SchemaGenerator.calculate_table_connections`: per table, `outgoing` is
the length of `get_connected_tables` (distinct referenced tables), `incoming`
adds up `other.get_connected_tables().count(name)` over the *other* tables,
and `connections` is their sum.  The source resets the counters and fills
them in three passes that only write counter fields, so the net effect is
this single map. -/
def calculate_table_connections (tables : List TableObj) : List TableObj :=
  tables.map (fun t =>
    let outgoing := (get_connected_tables t).length
    let incoming := tables.foldl
      (fun acc o => if o.name ≠ t.name then acc + (get_connected_tables o).count t.name else acc) 0
    { t with
        outgoing_connections := outgoing
        incoming_connections := incoming
        connections := incoming + outgoing })

/-! ### Occupied-area tracker and overlap verifier -/

/-- `SchemaGenerator.MARGIN`. -/
def MARGIN : Int := 10

/-- An axis-aligned rectangle as stored by the tracker. -/
structure Rect where
  x1 : Int
  y1 : Int
  x2 : Int
  y2 : Int
deriving DecidableEq, Repr

/-- The margin-inflated rectangle built by both `add_occupied_area` and
`is_area_free` from a position and size. -/
def inflate (x y w h : Int) : Rect :=
  ⟨x - MARGIN, y - MARGIN, x + w + MARGIN, y + h + MARGIN⟩

/-- `SchemaGenerator.add_occupied_area`: unconditionally append the inflated
rectangle. -/
def add_occupied_area (occ : List Rect) (x y w h : Int) : List Rect :=
  occ ++ [inflate x y w h]

/-- The source's non-overlap test between two stored rectangles: disjoint iff
one is completely to the left/right/above/below (with `≤`/`≥`, so rectangles
that merely touch count as disjoint). -/
def rectsDisjoint (t o : Rect) : Bool :=
  decide (t.x2 ≤ o.x1) || decide (t.x1 ≥ o.x2) || decide (t.y2 ≤ o.y1) || decide (t.y1 ≥ o.y2)

/-- `SchemaGenerator.is_area_free`: inflate the query and test it against
every tracked rectangle, failing on the first intersection. -/
def is_area_free (occ : List Rect) (x y w h : Int) : Bool :=
  occ.all (fun o => rectsDisjoint (inflate x y w h) o)

/-- The source's exact (non-inflated) table-overlap test from
`verify_no_overlaps`, `True` when the two tables do *not* overlap. -/
def tablesDisjoint (a b : TableObj) : Bool :=
  decide (a.x + a.width ≤ b.x) || decide (a.x ≥ b.x + b.width) ||
    decide (a.y + a.height ≤ b.y) || decide (a.y ≥ b.y + b.height)

/-- `SchemaGenerator.verify_no_overlaps`: the number of unordered pairs of
distinct tables whose exact rectangles overlap. -/
def verify_no_overlaps : List TableObj → Nat
  | [] => 0
  | t :: ts => (ts.filter (fun u => !(tablesDisjoint t u))).length + verify_no_overlaps ts

/-! ### Spec-level predicates (stated from the specification's words, for
comparison with the code-level definitions) -/

/-- Two rectangles share interior points (strict inequalities on every
side). -/
def RectsInteriorOverlap (a b : Rect) : Prop :=
  a.x1 < b.x2 ∧ b.x1 < a.x2 ∧ a.y1 < b.y2 ∧ b.y1 < a.y2

/-- Two tables' exact rectangles share interior points. -/
def TablesInteriorOverlap (a b : TableObj) : Prop :=
  a.x < b.x + b.width ∧ b.x < a.x + a.width ∧ a.y < b.y + b.height ∧ b.y < a.y + a.height

/-! ### Planner state -/

/-- The mutable `SchemaGenerator` layout state: the table store, the
occupied-area tracker, the mutable canvas and the center fixed at
initialization. -/
structure GenState where
  tables : List TableObj
  occupied_areas : List Rect := []
  canvas_width : Int := 2400
  canvas_height : Int := 1800
  center_x : Int := 1200
  center_y : Int := 900
deriving DecidableEq, Repr

instance : Inhabited TableObj := ⟨{ name := "" }⟩

/-- Update the table named `nm` in the store (embeds mutation of the shared
`Table` object; table names are dict keys, hence unique). -/
def updTable (nm : String) (f : TableObj → TableObj) (s : GenState) : GenState :=
  { s with tables := s.tables.map (fun t => if t.name = nm then f t else t) }

/-- Look up `self.tables[nm]`; the default is never reached in a faithful
run because every referenced table is auto-created on input. -/
def findTable (s : GenState) (nm : String) : TableObj :=
  (s.tables.find? (fun t => t.name = nm)).getD { name := nm }

/-- Python `max` over a nonempty integer list (callers guard emptiness). -/
def listMax (l : List Int) : Int := l.foldl max l.headI

/-- One `table_of_tables` entry (source lines 376-388).  The `ID`,
`connections_str` and `single_children_str` fields only feed `print`/debug
output and are omitted; `table_obj` is embedded as lookup by `table_name`. -/
structure TEntry where
  table_name : String
  connections_num : Nat
  connected_names : List String
  single_children : List String := []
  combined_block_width : Int := 0
  combined_block_height : Int := 0
  is_placed : Bool := false
deriving DecidableEq, Repr

/-- The full state threaded through `position_tables_with_clustering`. -/
structure PlanState where
  gen : GenState
  entries : List TEntry
  tables_placed : Nat := 0
  max_tables : Nat
  flag : Option String := none
deriving DecidableEq, Repr

def markEntryPlaced (nm : String) (es : List TEntry) : List TEntry :=
  es.map (fun e => if e.table_name = nm then { e with is_placed := true } else e)

def findEntry (es : List TEntry) (nm : String) : Option TEntry :=
  es.find? (fun e => e.table_name = nm)

/-- The placement idiom used at every placement site of the source: write the
position onto the table, set `is_positioned`, mark the entry placed,
register the occupied area at the table's own size, and count the
placement. -/
def placeTable (nm : String) (x y : Int) (st : PlanState) : PlanState :=
  let t := findTable st.gen nm
  let g := updTable nm (fun u => { u with x := x, y := y, is_positioned := true }) st.gen
  { st with
      gen := { g with occupied_areas := add_occupied_area g.occupied_areas x y t.width t.height }
      entries := markEntryPlaced nm st.entries
      tables_placed := st.tables_placed + 1 }

/-- The relocation idiom (stack formation and residual restacking): move an
already-placed table and register the occupied area at the new position; the
stale area at the old position stays in the append-only tracker. -/
def relocateTable (nm : String) (x y : Int) (st : PlanState) : PlanState :=
  let t := findTable st.gen nm
  let g := updTable nm (fun u => { u with x := x, y := y }) st.gen
  { st with
      gen := { g with occupied_areas := add_occupied_area g.occupied_areas x y t.width t.height } }

/-! ### Free-position searches

The probe point `(int(ax + r*cos(a°)), int(ay + r*sin(a°)))` is computed in
IEEE-754 doubles in the source; it enters the embedding as the parameter
`trig ax ay r a`.  The iteration ranges, bounds checks, freeness tests and
canvas-growth fallbacks are embedded exactly. -/

/-- The probe-point computation of the expanding-ring searches (see the
header comment): arguments anchor x, anchor y, radius, angle in degrees. -/
abbrev Trig := Int → Int → Int → Int → Int × Int

/-- The probe points of one expanding-ring search, in search order. -/
def ringPoints (trig : Trig) (ax ay rStart rStop rStep aStep : Int) : List (Int × Int) :=
  (rangeUp rStart rStop rStep).flatMap (fun r =>
    (rangeUp 0 360 aStep).map (fun a => trig ax ay r a))

/-- Accept a probe when it is inside the canvas (10px border) and the area
there is free; shared by all three ring searches, whose bounds tests are
textually identical in the source. -/
def ringProbe (s : GenState) (w h : Int) (p : Int × Int) : Option (Int × Int) :=
  if 10 ≤ p.1 ∧ p.1 ≤ s.canvas_width - w - 10 ∧ 10 ≤ p.2 ∧ p.2 ≤ s.canvas_height - h - 10
      ∧ is_area_free s.occupied_areas p.1 p.2 w h = true
  then some p else none

/-- `SchemaGenerator.get_next_free_position_near_center`: rings of radius
step 20 and angle step 3 around the (fixed) canvas center; on exhaustion the
canvas grows 400 to the right and the position is at the new right edge. -/
def get_next_free_position_near_center (trig : Trig) (s : GenState) (w h : Int) :
    (Int × Int) × GenState :=
  let pts := ringPoints trig s.center_x s.center_y 0 (max s.canvas_width s.canvas_height) 20 3
  match pts.findSome? (ringProbe s w h) with
  | some p => (p, s)
  | none =>
    ((s.canvas_width + 400 - w - 20, s.center_y), { s with canvas_width := s.canvas_width + 400 })

/-- `SchemaGenerator.get_next_free_position_near_table`: rings of radius
60,75,... step 15 and angle step 2 around the anchor table's center; on
exhaustion the canvas grows rightward or downward depending on which side of
the canvas the anchor sits. -/
def get_next_free_position_near_table (trig : Trig) (s : GenState) (anchor : TableObj)
    (w h : Int) : (Int × Int) × GenState :=
  let ax := anchor.x + anchor.width.fdiv 2
  let ay := anchor.y + anchor.height.fdiv 2
  let pts := ringPoints trig ax ay 60 (max s.canvas_width s.canvas_height) 15 2
  match pts.findSome? (ringProbe s w h) with
  | some p => (p, s)
  | none =>
    if ax > s.canvas_width.fdiv 2 then
      ((s.canvas_width + 400 - w - 20, ay), { s with canvas_width := s.canvas_width + 400 })
    else
      ((ax, s.canvas_height + 300 - h - 20), { s with canvas_height := s.canvas_height + 300 })

/-- `SchemaGenerator.find_free_location_for_stack`: rings of radius step 25
and angle step 4 around the canvas center; on exhaustion the canvas grows
600 to the right (and down when the stack does not fit vertically) and the
stack goes to the new right edge at the center height. -/
def find_free_location_for_stack (trig : Trig) (s : GenState) (sw sh : Int) :
    (Int × Int) × GenState :=
  let pts := ringPoints trig s.center_x s.center_y 0 (max s.canvas_width s.canvas_height) 25 4
  match pts.findSome? (ringProbe s sw sh) with
  | some p => (p, s)
  | none =>
    let cw2 := s.canvas_width + 600
    let nx := cw2 - sw - 20
    let ny := s.center_y
    if ny + sh > s.canvas_height then
      ((nx, ny), { s with canvas_width := cw2, canvas_height := ny + sh + 50 })
    else
      ((nx, ny), { s with canvas_width := cw2 })

/-- `SchemaGenerator.find_free_location_bottom_left`: scan upward in steps
of 50 from `start_y - h`, each row rightward in steps of 50 from `start_x`;
on exhaustion grow the canvas 400 down and rescan the new bottom row, then
grow 400 right as the final fallback. -/
def find_free_location_bottom_left (s : GenState) (w h start_x start_y : Int) :
    (Int × Int) × GenState :=
  let candidates :=
    (rangeDown (start_y - h) 10 50).flatMap (fun y =>
      (rangeUp start_x (s.canvas_width - w - 10) 50).map (fun x => (x, y)))
  match candidates.findSome? (ringProbe s w h) with
  | some p => (p, s)
  | none =>
    let s2 := { s with canvas_height := s.canvas_height + 400 }
    let ny := s2.canvas_height - h - 20
    match (rangeUp start_x (s2.canvas_width - w - 10) 50).find?
        (fun x => is_area_free s2.occupied_areas x ny w h) with
    | some x => ((x, ny), s2)
    | none =>
      ((s2.canvas_width + 400 - w - 20, ny), { s2 with canvas_width := s2.canvas_width + 400 })

/-! ### Sort comparators (Python `list.sort` with the source's keys) -/

/-- Key order of the master ranking
`sort(key=lambda x: (connections_num, table_name), reverse=True)`: strictly
descending on the *pair*, so ties in the connection count are broken by the
name descending. -/
def masterLt (a b : TEntry) : Bool :=
  decide (b.connections_num < a.connections_num) ||
    (decide (a.connections_num = b.connections_num) && strLt b.table_name a.table_name)

/-- Key order of the residual-grid-fallback sort
`sort(key=lambda x: (-connections_num, table_name))`: connection count
descending, then name ascending. -/
def remainingLt (a b : TEntry) : Bool :=
  decide (b.connections_num < a.connections_num) ||
    (decide (a.connections_num = b.connections_num) && strLt a.table_name b.table_name)

/-- Name-ascending order (orphan placement and child-stack ordering). -/
def nameLt (a b : TEntry) : Bool := strLt a.table_name b.table_name

/-! ### `table_of_tables` construction (source lines 364-447) -/

/-- Phase 0 for one entry: find its single children by scanning every entry
(bidirectional test), re-run `calculate_dimensions` on the table and on each
child, and fill in the combined block dimensions. -/
def phase0Entry (entries0 : List TEntry) (acc : GenState × List TEntry) (e : TEntry) :
    GenState × List TEntry :=
  let (g, out) := acc
  let singles := (entries0.filter (fun c =>
    c.connections_num = 1 ∧
      (e.table_name ∈ c.connected_names ∨ c.table_name ∈ e.connected_names))).map
      (fun c => c.table_name)
  let g1 := updTable e.table_name calculate_dimensions g
  let g2 := singles.foldl (fun gg nm => updTable nm calculate_dimensions gg) g1
  let pt := findTable g2 e.table_name
  let entry2 :=
    if singles ≠ [] then
      { e with
          single_children := singles
          combined_block_width := listMax (pt.width :: singles.map (fun nm => (findTable g2 nm).width))
          combined_block_height := pt.height + (singles.map (fun nm => (findTable g2 nm).height)).sum }
    else
      { e with combined_block_width := pt.width, combined_block_height := pt.height }
  (g2, out ++ [entry2])

/-- Build `table_of_tables`: one entry per table in insertion order, then
Phase 0 (single children and combined blocks), then the master sort. -/
def buildEntries (g : GenState) : GenState × List TEntry :=
  let base : List TEntry := g.tables.map (fun t =>
    { table_name := t.name
      connections_num := t.connections
      connected_names := get_connected_tables t })
  let (g2, entries) := base.foldl (phase0Entry base) (g, [])
  (g2, sortByLt masterLt entries)

/-! ### Step 0: orphan placement (source lines 787-884) -/

/-- Number of orphan rows: `(len(orphans) + 3) // 4`. -/
def orphanNumRows (k : Nat) : Nat := (k + 4 - 1) / 4

/-- Split a list into consecutive chunks of `n ≥ 1` elements (Python
`l[i:i+n]` slicing loop); the fuel argument is the list length. -/
def chunksOfAux (n : Nat) : Nat → List α → List (List α)
  | 0, _ => []
  | _, [] => []
  | fuel + 1, l => l.take n :: chunksOfAux n fuel (l.drop n)

def chunksOf (n : Nat) (l : List α) : List (List α) := chunksOfAux n l.length l

/-- One orphan placement in a row: move the x cursor left by the table's
width, place it at the cursor, then move left by the margin (with the
debug-cap break, which skips every later table because the counter never
decreases). -/
def orphanRowStep (cy : Int) (p : PlanState × Int) (e : TEntry) : PlanState × Int :=
  let (st, cx) := p
  if st.tables_placed ≥ st.max_tables then (st, cx)
  else
    let t := findTable st.gen e.table_name
    let cx2 := cx - t.width
    (placeTable e.table_name cx2 cy st, cx2 - MARGIN)

/-- Place one orphan row right-to-left starting at the current x cursor
(the canvas right edge minus the margin). -/
def placeOrphanRowTables (row : List TEntry) (cy : Int) (stcx : PlanState × Int) :
    PlanState × Int :=
  row.reverse.foldl (orphanRowStep cy) stcx

/-- Place the orphan rows bottom-to-top.  The rows are processed in reversed
order, so the head of the argument here is the *last* original row (the
bottom row); the inter-row margin is skipped after the original row 0 (the
final row processed). -/
def placeOrphanRowsRev : List (List TEntry) → PlanState → Int → PlanState
  | [], st, _ => st
  | row :: rest, st, cy =>
    let row_height := listMax (row.map (fun e => (findTable st.gen e.table_name).height))
    let cy2 := cy - row_height
    let st2 := (placeOrphanRowTables row cy2 (st, st.gen.canvas_width - MARGIN)).1
    let cy3 := if rest ≠ [] then cy2 - MARGIN else cy2
    placeOrphanRowsRev rest st2 cy3

/-- The orphan block size estimate (source lines 810-817): rows of 4 tables
of the maximal orphan width/height, margins included. -/
def orphanAreaSize (g : GenState) (orphans : List TEntry) : Int × Int :=
  let max_width := listMax (orphans.map (fun e => (findTable g e.table_name).width))
  let max_height := listMax (orphans.map (fun e => (findTable g e.table_name).height))
  ((max_width + MARGIN) * 4 + MARGIN,
   (max_height + MARGIN) * (orphanNumRows orphans.length : Int) + MARGIN)

/-- `SchemaGenerator.place_orphan_tables`: tables with no connections are
sorted by name, their dimensions recomputed, the canvas is grown by the
orphan block estimate (the source compares `canvas_width <
canvas_width + orphan_area_width`, which holds whenever the block estimate
is positive), and the orphans are tiled in rows of 4 from the bottom-right
corner, rows bottom-to-top and each row right-to-left.  (The per-row
`row_width` of the source is computed but never read, and is omitted.) -/
def place_orphan_tables (st : PlanState) : PlanState :=
  let orphan_tables := st.entries.filter (fun e => e.connections_num = 0)
  if orphan_tables = [] then st
  else
    let orphans := sortByLt nameLt orphan_tables
    let g1 := orphans.foldl (fun gg e => updTable e.table_name calculate_dimensions gg) st.gen
    let area := orphanAreaSize g1 orphans
    let cw2 := if g1.canvas_width < g1.canvas_width + area.1
               then g1.canvas_width + area.1 else g1.canvas_width
    let ch2 := if g1.canvas_height < g1.canvas_height + area.2
               then g1.canvas_height + area.2 else g1.canvas_height
    let g2 := { g1 with canvas_width := cw2, canvas_height := ch2 }
    let st2 := { st with gen := g2 }
    let rows := chunksOf 4 orphans
    placeOrphanRowsRev rows.reverse st2 (g2.canvas_height - MARGIN)

/-! ### Child stacking (source lines 886-958) -/

/-- `SchemaGenerator.place_direct_children`: collect the parent's unplaced
single children, cap them to the remaining debug slots, sort them by name,
find a free location for the whole parent+children stack, *move the parent
there* (registering a fresh occupied area; the stale one remains), and stack
the children below in touching formation. -/
def place_direct_children (trig : Trig) (parentName : String) (st : PlanState) : PlanState :=
  match findEntry st.entries parentName with
  | none => st
  | some parent_entry =>
    if parent_entry.single_children = [] then st
    else
      let direct0 := parent_entry.single_children.filterMap (fun nm =>
        match findEntry st.entries nm with
        | some e => if e.is_placed then none else some e
        | none => none)
      if direct0 = [] then st
      else
        let remaining_slots := st.max_tables - st.tables_placed
        let direct1 := if direct0.length > remaining_slots then direct0.take remaining_slots
                       else direct0
        let direct := sortByLt nameLt direct1
        let parent_table := findTable st.gen parentName
        let total_w := max parent_table.width
          (listMax (direct.map (fun e => (findTable st.gen e.table_name).width)))
        let total_h := parent_table.height +
          (direct.map (fun e => (findTable st.gen e.table_name).height)).sum
        let (pos, g2) := find_free_location_for_stack trig st.gen total_w total_h
        let st3 := relocateTable parentName pos.1 pos.2 { st with gen := g2 }
        (direct.foldl (fun (p : PlanState × Int) e =>
            let (stc, cy) := p
            let ct := findTable stc.gen e.table_name
            (placeTable e.table_name pos.1 cy stc, cy + ct.height))
          (st3, pos.2 + parent_table.height)).1

/-! ### Step 1 and the clustering loop (source lines 458-587) -/

/-- Step 1: place the FLAG table (the head of the sorted `table_of_tables`)
near the canvas center using its combined block size, then stack its direct
children. -/
def placeFlagStep (trig : Trig) (st : PlanState) : PlanState :=
  match st.entries with
  | [] => st
  | first :: _ =>
    if st.tables_placed < st.max_tables then
      let (pos, g2) := get_next_free_position_near_center trig st.gen
        first.combined_block_width first.combined_block_height
      let st2 := placeTable first.table_name pos.1 pos.2 { st with gen := g2 }
      place_direct_children trig first.table_name { st2 with flag := some first.table_name }
    else st

/-- The Phase-A candidate scan (source lines 500-521): fold over the entries
keeping the best `(candidate, connections_to_flag)` pair; ties in the flag
connection count are broken by the candidate's own total connection count,
and an entry ties with an empty best slot. -/
def bestFlagCandidate (entries : List TEntry) (flagE : TEntry) : Option TEntry × Nat :=
  entries.foldl (fun best e =>
    if e.is_placed = false ∧ e.connections_num > 1 then
      let c1 := if flagE.table_name ∈ e.connected_names
                then e.connected_names.count flagE.table_name else 0
      let c2 := if e.table_name ∈ flagE.connected_names
                then flagE.connected_names.count e.table_name else 0
      let cf := c1 + c2
      match best with
      | (none, bc) => if cf > bc ∨ cf = bc then (some e, cf) else best
      | (some b, bc) =>
        if cf > bc ∨ (cf = bc ∧ e.connections_num > b.connections_num) then (some e, cf)
        else best
    else best) (none, 0)

/-- One Phase-A iteration: place the best candidate with a positive flag
connection count near the flag table, then its children; `none` is the
`break` (no candidate with a flag connection). -/
def phaseAStep (trig : Trig) (st : PlanState) : Option PlanState :=
  match st.flag with
  | none => none
  | some flagName =>
    match findEntry st.entries flagName with
    | none => none
    | some flagE =>
      match bestFlagCandidate st.entries flagE with
      | (some cand, cnt) =>
        if cnt > 0 then
          let anchor := findTable st.gen flagName
          let (pos, g2) := get_next_free_position_near_table trig st.gen anchor
            cand.combined_block_width cand.combined_block_height
          let st2 := placeTable cand.table_name pos.1 pos.2 { st with gen := g2 }
          some (place_direct_children trig cand.table_name st2)
        else none
      | (none, _) => none

/-- The Phase-A `while` guard plus body. -/
def phaseALoopStep (trig : Trig) (st : PlanState) : Option PlanState :=
  if st.tables_placed < st.max_tables then phaseAStep trig st else none

def unplacedCount (st : PlanState) : Nat :=
  (st.entries.filter (fun e => e.is_placed = false)).length

/-- The whole Phase-A loop; the boolean records whether at least one table
was placed (`placed_in_this_iteration > 0`).  The fuel `unplacedCount + 1`
is sufficient (theorem `keys2schema_termination`). -/
def phaseARun (trig : Trig) (st : PlanState) : PlanState × Bool :=
  match phaseALoopStep trig st with
  | none => (st, false)
  | some st1 => (fuelLoop (phaseALoopStep trig) (unplacedCount st1 + 1) st1, true)

/-- The Phase-B candidate scan (source lines 554-558): the first unplaced
multi-connection entry with the maximal connection count. -/
def bestByConnections (entries : List TEntry) : Option TEntry :=
  entries.foldl (fun best e =>
    if e.is_placed = false ∧ e.connections_num > 1 then
      match best with
      | none => some e
      | some b => if e.connections_num > b.connections_num then some e else best
    else best) none

/-- Phase B: start a new cluster at the canvas center; the placed table
becomes the new flag.  `none` is the final `break`. -/
def phaseBStep (trig : Trig) (st : PlanState) : Option PlanState :=
  match bestByConnections st.entries with
  | none => none
  | some cand =>
    let (pos, g2) := get_next_free_position_near_center trig st.gen
      cand.combined_block_width cand.combined_block_height
    let st2 := placeTable cand.table_name pos.1 pos.2 { st with gen := g2 }
    let st3 := place_direct_children trig cand.table_name st2
    some { st3 with flag := some cand.table_name }

/-- One iteration of the Step-2 `while` loop: check the guard and the
presence of unplaced main tables, run Phase A (when a flag exists), and fall
through to Phase B when Phase A placed nothing.  `none` is loop exit, and on
every exit path the state is unchanged. -/
def mainLoopStep (trig : Trig) (st : PlanState) : Option PlanState :=
  if st.tables_placed < st.max_tables then
    if st.entries.any (fun e => e.is_placed = false ∧ e.connections_num > 1) then
      let ar := match st.flag with
                | some _ => phaseARun trig st
                | none => (st, false)
      if ar.2 then some ar.1 else phaseBStep trig ar.1
    else none
  else none

/-! ### Phase C: residual single-child stacking (source lines 589-724) -/

/-- Append a child to the (insertion-ordered) parent groups. -/
def appendToGroup (gs : List (String × List String)) (p c : String) :
    List (String × List String) :=
  if gs.any (fun g => g.1 = p) then
    gs.map (fun g => if g.1 = p then (g.1, g.2 ++ [c]) else g)
  else gs ++ [(p, [c])]

/-- Stack one parent group (source lines 651-707): check with 10px strips
whether the space below the parent is free for the whole stack, relocate the
parent via a center search when it is not, then stack the children below in
touching formation (with the debug-cap break). -/
def stackGroup (trig : Trig) (parentName : String) (children : List String)
    (st : PlanState) : PlanState :=
  if children = [] then st
  else
    let parent := findTable st.gen parentName
    let total_children_height := (children.map (fun nm => (findTable st.gen nm).height)).sum
    let max_child_width := listMax (children.map (fun nm => (findTable st.gen nm).width))
    let stack_width := max parent.width max_child_width
    let combined_height := parent.height + total_children_height
    let space_needed_y := parent.y + combined_height
    let needs_relocation := (rangeUp (parent.y + parent.height) space_needed_y 10).any
      (fun ty => !(is_area_free st.gen.occupied_areas parent.x ty stack_width 10))
    let (st1, px, py) :=
      if needs_relocation then
        let (pos, g2) := get_next_free_position_near_center trig st.gen stack_width combined_height
        (relocateTable parentName pos.1 pos.2 { st with gen := g2 }, pos.1, pos.2)
      else (st, parent.x, parent.y)
    (children.foldl (fun (p : PlanState × Int) nm =>
        let (stc, cy) := p
        if stc.tables_placed ≥ stc.max_tables then (stc, cy)
        else
          let ct := findTable stc.gen nm
          (placeTable nm px cy stc, cy + ct.height))
      (st1, py + parent.height)).1

/-- Phase C: group the still-unplaced single children by their parent
(checking both edge directions against the *current* placement state), place
parents that are themselves unplaced at the canvas center (stacking their
children immediately), stack each group under its placed parent, and place
parentless children individually at the canvas center. -/
def phaseC (trig : Trig) (st : PlanState) : PlanState :=
  let unplaced_singles := st.entries.filter
    (fun e => e.is_placed = false ∧ e.connections_num = 1)
  if unplaced_singles ≠ [] ∧ st.tables_placed < st.max_tables then
    let step1 := unplaced_singles.foldl
      (fun (acc : PlanState × List (String × List String) × List String) child =>
        let (stc, groups, orphaned) := acc
        let p1 : Option TEntry :=
          match child.connected_names with
          | [] => none
          | pn :: _ => findEntry stc.entries pn
        let parentE : Option TEntry :=
          match p1 with
          | some e => some e
          | none => stc.entries.find? (fun pe => child.table_name ∈ pe.connected_names)
        match parentE with
        | some pe =>
          if pe.is_placed then
            (stc, appendToGroup groups pe.table_name child.table_name, orphaned)
          else
            let (pos, g2) := get_next_free_position_near_center trig stc.gen
              pe.combined_block_width pe.combined_block_height
            let stc2 := placeTable pe.table_name pos.1 pos.2 { stc with gen := g2 }
            (place_direct_children trig pe.table_name stc2, groups, orphaned)
        | none => (stc, groups, orphaned ++ [child.table_name]))
      (st, ([] : List (String × List String)), ([] : List String))
    let st2 := step1.2.1.foldl (fun stc g => stackGroup trig g.1 g.2 stc) step1.1
    step1.2.2.foldl (fun stc nm =>
        if stc.tables_placed ≥ stc.max_tables then stc
        else
          let t := findTable stc.gen nm
          let (pos, g2) := get_next_free_position_near_center trig stc.gen t.width t.height
          placeTable nm pos.1 pos.2 { stc with gen := g2 }) st2
  else st

/-! ### Residual grid fallback (source lines 726-783) -/

/-- The bottom-left fallback for leftover multi-connection tables: sort by
connection count descending then name ascending and place each via
`find_free_location_bottom_left` from the canvas's (pre-loop) bottom-left
corner.  (The `single_children_list` child-stacking branch of the source is
dead code — entries only ever carry a `single_children` key — and has no
embedding.) -/
def remainingPhase (st : PlanState) : PlanState :=
  let remaining := st.entries.filter (fun e => e.is_placed = false ∧ e.connections_num > 1)
  if remaining = [] then st
  else
    let sorted := sortByLt remainingLt remaining
    let start_x := MARGIN
    let start_y := st.gen.canvas_height - MARGIN
    sorted.foldl (fun stc e =>
      if stc.tables_placed ≥ stc.max_tables then stc
      else
        let (pos, g2) := find_free_location_bottom_left stc.gen e.combined_block_width
          e.combined_block_height start_x start_y
        placeTable e.table_name pos.1 pos.2 { stc with gen := g2 }) st

/-! ### The complete layout run -/

/-- `SchemaGenerator.position_tables_with_clustering`. -/
def position_tables_with_clustering (trig : Trig) (maxOpt : Option Nat) (g : GenState) :
    PlanState :=
  let maxT := maxOpt.getD g.tables.length
  let (g2, entries) := buildEntries g
  let st0 : PlanState :=
    { gen := g2, entries := entries, tables_placed := 0, max_tables := maxT, flag := none }
  let st1 := place_orphan_tables st0
  let st2 := placeFlagStep trig st1
  let st3 := fuelLoop (mainLoopStep trig) (unplacedCount st2 + 1) st2
  let st4 := phaseC trig st3
  remainingPhase st4

/-- `SchemaGenerator.position_tables_intelligently`: compute dimensions and
connection counts, initialize the canvas at 2400x1800 with the center fixed
at (1200, 900), and run the clustering placement with no debug cap
(`max_tables_to_place = None`).  The final verification and metrics prints
of the source are read-only. -/
def position_tables_intelligently (trig : Trig) (tables : List TableObj) : PlanState :=
  let tables1 := tables.map calculate_dimensions
  let tables2 := calculate_table_connections tables1
  let g : GenState :=
    { tables := tables2, occupied_areas := []
      canvas_width := 2400, canvas_height := 1800, center_x := 1200, center_y := 900 }
  position_tables_with_clustering trig none g

/-- The overlap count the source prints after a complete layout run. -/
def layoutOverlapCount (trig : Trig) (tables : List TableObj) : Nat :=
  verify_no_overlaps (position_tables_intelligently trig tables).gen.tables

/-- A degenerate probe function used to instantiate concrete counterexample
runs; every theorem using it is arranged so that the run provably never
consults the probe (the bounds checks reject every probe point). -/
def trigZero : Trig := fun _ _ _ _ => (0, 0)

/-! ### Spec-level predicates and concrete inputs used by the claims -/

/-- Flip `is_placed` for every entry whose name occurs in `NS`: the
cumulative effect of a sequence of `markEntryPlaced` calls (used to state
what a placement phase does to the entry list). -/
def flipPlaced (NS : List String) (es : List TEntry) : List TEntry :=
  es.map (fun e => if e.table_name ∈ NS then { e with is_placed := true } else e)

/-- The list of *distinct* directed reference pairs
`(source table, referenced table)` implied by the foreign keys (one entry per
referencing table and referenced table, regardless of how many foreign keys
connect them). -/
def distinctEdges (tables : List TableObj) : List (String × String) :=
  (tables.map (fun t => (get_connected_tables t).map (fun r => (t.name, r)))).flatten

/-- C3 counterexample input: table `B` holds *two* foreign-key columns both
referencing table `A`. -/
def c3A : TableObj := { name := "A", columns := [{ name := "a" }] }

def c3B : TableObj :=
  { name := "B"
    columns := [{ name := "b1", foreign_keys := [("A", "a")] },
                { name := "b2", foreign_keys := [("A", "a")] }] }

/-- Spec-level (the claim's words): connection count descending with ties
broken by table name ascending. -/
def ConnDescNameAsc (l : List TEntry) : Prop :=
  l.Pairwise (fun a b => b.connections_num < a.connections_num ∨
    (a.connections_num = b.connections_num ∧ strLt b.table_name a.table_name = false))

/-- What the master ranking actually produces: connection count descending
with ties broken by table name *descending*. -/
def ConnDescNameDesc (l : List TEntry) : Prop :=
  l.Pairwise (fun a b => b.connections_num < a.connections_num ∨
    (a.connections_num = b.connections_num ∧ strLt a.table_name b.table_name = false))

def c4A : TEntry := { table_name := "A", connections_num := 5, connected_names := [] }

def c4B : TEntry := { table_name := "B", connections_num := 5, connected_names := [] }

/-- Spec-level (the claim's words): the orphan block fits the current
canvas. -/
def OrphanBlockFits (areaW areaH cw ch : Int) : Prop := areaW ≤ cw ∧ areaH ≤ ch

/-- C7 counterexample input: a single table with no foreign keys
(`connections = 0`), whose orphan block trivially fits the 2400x1800
canvas. -/
def c7Input : List TableObj := [{ name := "Orphan", columns := [{ name := "id" }] }]

/-- Concrete planner state with a single orphan entry (used to instantiate the
orphan-phase theorem on a closed input). -/
def c7State : PlanState :=
  { gen := { tables := [{ name := "Orphan", columns := [{ name := "id" }] }] },
    entries := [{ table_name := "Orphan", connections_num := 0, connected_names := [] }],
    max_tables := 1 }

/-- The child list `place_direct_children` stacks (source lines 896-912): the
parent's unplaced single children, capped to the remaining debug slots and
sorted by table name. -/
def directChildrenOf (st : PlanState) (pe : TEntry) : List TEntry :=
  let direct0 := pe.single_children.filterMap (fun nm =>
    match findEntry st.entries nm with
    | some e => if e.is_placed then none else some e
    | none => none)
  let remaining_slots := st.max_tables - st.tables_placed
  let direct1 := if direct0.length > remaining_slots then direct0.take remaining_slots
                 else direct0
  sortByLt nameLt direct1

/-- The child-stacking loop of `place_direct_children` (source lines 935-957):
place each child at the running y cursor, left-aligned at `px`, advancing the
cursor by the child's height. -/
def stackChildren (px : Int) (direct : List TEntry) (st : PlanState) (cy : Int) :
    PlanState × Int :=
  direct.foldl (fun (p : PlanState × Int) e =>
    let (stc, cy) := p
    let ct := findTable stc.gen e.table_name
    (placeTable e.table_name px cy stc, cy + ct.height)) (st, cy)

/-- The whole-stack free-location search of `place_direct_children` (source
lines 917-923): width is the widest of parent and children, height their
total. -/
def stackSearchOf (trig : Trig) (st : PlanState) (parentName : String) (pe : TEntry) :
    (Int × Int) × GenState :=
  find_free_location_for_stack trig st.gen
    (max (findTable st.gen parentName).width
      (listMax ((directChildrenOf st pe).map (fun e => (findTable st.gen e.table_name).width))))
    ((findTable st.gen parentName).height
      + ((directChildrenOf st pe).map (fun e => (findTable st.gen e.table_name).height)).sum)

/-- C2 counterexample input: parent `P` with two single children `B1`, `B2`
(each holds one foreign key into `P`). -/
def c2P : TableObj := { name := "P", columns := [{ name := "p" }] }

def c2B1 : TableObj := { name := "B1", columns := [{ name := "b", foreign_keys := [("P", "p")] }] }

def c2B2 : TableObj := { name := "B2", columns := [{ name := "c", foreign_keys := [("P", "p")] }] }

/-- C2 counterexample start state: the three tables with dimensions and
connection counts computed, on a small canvas (so the concrete run's ring
searches are short; every probe of `trigZero` fails the border check, which
the searches answer with their canvas-growth fallbacks). -/
def c2G : GenState :=
  { tables := calculate_table_connections ([c2P, c2B1, c2B2].map calculate_dimensions)
    occupied_areas := []
    canvas_width := 60, canvas_height := 40, center_x := 30, center_y := 20 }

/-- The occupied-area tracking invariant (the claim's words): every
positioned table's margin-inflated rectangle at its CURRENT geometry is in
the tracker. -/
def InvOcc (g : GenState) : Prop :=
  ∀ t ∈ g.tables, t.is_positioned = true →
    inflate t.x t.y t.width t.height ∈ g.occupied_areas

/-- C1 failing input: two mutually referencing tables with 320-character
names (so both are 2904px wide, wider than every canvas bound they meet) and
31 columns each. -/
def c1NameA : String := String.mk (List.replicate 320 'a')

def c1NameB : String := String.mk (List.replicate 320 'b')

def c1Cols (fkTarget : String) : List Column :=
  { name := "c0", foreign_keys := [(fkTarget, "c0")] } ::
    (List.range 30).map (fun i => { name := "d" ++ toString i })

def c1A : TableObj := { name := c1NameA, columns := c1Cols c1NameB }

def c1B : TableObj := { name := c1NameB, columns := c1Cols c1NameA }

def c1Input : List TableObj := [c1A, c1B]

/-- The generator state `position_tables_intelligently` builds for
`c1Input`. -/
def c1G : GenState :=
  { tables := calculate_table_connections (c1Input.map calculate_dimensions)
    occupied_areas := []
    canvas_width := 2400, canvas_height := 1800, center_x := 1200, center_y := 900 }

/-- The planner state after `table_of_tables` is built for `c1Input`. -/
def c1St0 : PlanState :=
  { gen := (buildEntries c1G).1, entries := (buildEntries c1G).2,
    tables_placed := 0, max_tables := 2, flag := none }

/-- The master-sorted entries of `c1St0` (`B` first: equal connection
counts, name descending). -/
def c1EB : TEntry :=
  { table_name := c1NameB, connections_num := 2, connected_names := [c1NameA]
    combined_block_width := 2904, combined_block_height := 598 }

def c1EA : TEntry :=
  { table_name := c1NameA, connections_num := 2, connected_names := [c1NameB]
    combined_block_width := 2904, combined_block_height := 598 }

/-- The state after step 1 places the flag table `B` through the
center-search canvas-growth fallback at `(-124, 900)`. -/
def c1St2 : PlanState :=
  { (placeTable c1NameB (-124) 900
      { c1St0 with gen := { c1St0.gen with canvas_width := 2800 } }) with
    flag := some c1NameB }

/-- The state after Phase A places `A` through the near-table downward
canvas-growth fallback at `(1328, 1482)` — overlapping `B`, whose rectangle
reaches down to `y = 1498`. -/
def c1St3 : PlanState :=
  placeTable c1NameA 1328 1482 { c1St2 with gen := { c1St2.gen with canvas_height := 2100 } }

/-- The parent entry of `c2WState` (for instantiating the child-stacking
theorem). -/
def c2WPE : TEntry :=
  { table_name := "P", connections_num := 1, connected_names := []
    single_children := ["C"] }

/-- Concrete planner state for instantiating the child-stacking theorem: a
parent `P` with one single child `C`. -/
def c2WState : PlanState :=
  { gen := { tables := [calculate_dimensions { name := "P", columns := [{ name := "p" }] },
                        calculate_dimensions { name := "C", columns := [{ name := "c" }] }]
             canvas_width := 30, canvas_height := 30, center_x := 15, center_y := 15 },
    entries := [{ table_name := "P", connections_num := 1, connected_names := []
                  single_children := ["C"] },
                { table_name := "C", connections_num := 1, connected_names := ["P"] }],
    max_tables := 2 }

/-! ## Helper lemmas -/

theorem foldl_max_eq_max (a : ℕ) (l : List ℕ) : l.foldl max a = max a (l.foldl max 0) := by
  induction l generalizing a with
  | nil => simp
  | cons b l ih =>
    simp only [List.foldl_cons]
    rw [ih (max a b), ih (max 0 b)]
    omega

theorem foldl_max_le_iff (a : ℕ) (l : List ℕ) (n : ℕ) :
    l.foldl max a ≤ n ↔ a ≤ n ∧ ∀ x ∈ l, x ≤ n := by
  induction l generalizing a with
  | nil => simp
  | cons b l ih =>
    simp only [List.foldl_cons, ih (max a b), List.mem_cons]
    constructor
    · rintro ⟨hab, hl⟩
      refine ⟨le_trans (le_max_left _ _) hab, ?_⟩
      rintro x (rfl | hx)
      · exact le_trans (le_max_right _ _) hab
      · exact hl x hx
    · rintro ⟨ha, hl⟩
      exact ⟨max_le ha (hl b (Or.inl rfl)), fun x hx => hl x (Or.inr hx)⟩

theorem le_foldl_max (a : ℕ) (l : List ℕ) : a ≤ l.foldl max a := by
  by_contra h
  push_neg at h
  have := (foldl_max_le_iff a l (l.foldl max a)).mp le_rfl
  omega

/-- `maxTextLength` in terms of the raw name lengths. -/
theorem maxTextLength_eq (t : TableObj) :
    maxTextLength t = max t.name.length ((t.columns.map (fun c => c.name.length)).foldl max 0) := by
  unfold maxTextLength
  rw [show (fun (m : ℕ) (c : Column) => max m c.name.length)
        = (fun m c => (fun a b => max a b) m ((fun c : Column => c.name.length) c)) from rfl,
    ← List.foldl_map, foldl_max_eq_max]

/-- Rounding an integer-valued quantity with `int(v + 0.5)` is the
identity. -/
theorem fdiv_round_half (v : Int) : (2 * v + 1).fdiv 2 = v := by
  rw [Int.fdiv_eq_ediv _ (by norm_num)]
  omega

/-- Closed form of `calculate_dimensions`: the float arithmetic and the
`int(v + 0.5)` rounding collapse to exact integer formulas. -/
theorem calculate_dimensions_closed (t : TableObj) :
    (calculate_dimensions t).width = max 140 (9 * (maxTextLength t : ℤ) + 24) ∧
    (calculate_dimensions t).height = 28 + (t.columns.length : ℤ) * 18 + 12 := by
  unfold calculate_dimensions
  constructor
  · show (2 * max 140 ((maxTextLength t : ℤ) * 9 + 24) + 1).fdiv 2 = _
    rw [fdiv_round_half]
    omega
  · show (2 * (28 + (t.columns.length : ℤ) * 18 + 12) + 1).fdiv 2 = _
    rw [fdiv_round_half]

theorem calculate_dimensions_width (t : TableObj) :
    (calculate_dimensions t).width = max 140 (9 * (maxTextLength t : ℤ) + 24) :=
  (calculate_dimensions_closed t).1

theorem calculate_dimensions_height (t : TableObj) :
    (calculate_dimensions t).height = 28 + (t.columns.length : ℤ) * 18 + 12 :=
  (calculate_dimensions_closed t).2

/-! ## C5 — dimension calculator formulas -/

/-- C5: `calculate_dimensions` is a deterministic pure function of the table
name length, the column name lengths and the column count:
`width = max(min_width, max_text_length * char_width + padding_width)` and
`height = header_height + column_count * row_height + padding_height`, both
rounded to integers (the float values are integral, so the rounding is the
identity), with `max_text_length` the maximum of the name length and every
column-name length. -/
theorem claim_C5_dimension_formulas (t : TableObj) :
    (calculate_dimensions t).width = max 140 (9 * (maxTextLength t : ℤ) + 24) ∧
    (calculate_dimensions t).height = 28 + (t.columns.length : ℤ) * 18 + 12 ∧
    maxTextLength t = max t.name.length ((t.columns.map (fun c => c.name.length)).foldl max 0) ∧
    (∀ u : TableObj, u.name.length = t.name.length →
      u.columns.map (fun c => c.name.length) = t.columns.map (fun c => c.name.length) →
      (calculate_dimensions u).width = (calculate_dimensions t).width ∧
      (calculate_dimensions u).height = (calculate_dimensions t).height) := by
  refine ⟨calculate_dimensions_width t, calculate_dimensions_height t, maxTextLength_eq t, ?_⟩
  intro u hn hc
  have hm : maxTextLength u = maxTextLength t := by
    rw [maxTextLength_eq, maxTextLength_eq, hn, hc]
  have hl : u.columns.length = t.columns.length := by
    have := congrArg List.length hc
    simpa using this
  rw [calculate_dimensions_width, calculate_dimensions_width,
    calculate_dimensions_height, calculate_dimensions_height, hm, hl]
  exact ⟨rfl, rfl⟩

/-- Witness for C5's hypotheses: two concrete tables with equal name lengths
and column-name lengths get equal dimensions. -/
theorem claim_C5_dimension_formulas_witness :
    (calculate_dimensions { name := "XY", columns := [{ name := "u" }] }).width
      = (calculate_dimensions { name := "AB", columns := [{ name := "v" }] }).width ∧
    (calculate_dimensions { name := "XY", columns := [{ name := "u" }] }).height
      = (calculate_dimensions { name := "AB", columns := [{ name := "v" }] }).height :=
  (claim_C5_dimension_formulas { name := "AB", columns := [{ name := "v" }] }).2.2.2
    { name := "XY", columns := [{ name := "u" }] } (by decide) (by decide)

/-! ## C6 — dimension monotonicity and minimums -/

/-- C6: computed width and height are non-decreasing in the column list and
in the name length, and are always at least the minimums: `min_width = 140`
(the documented clamp) and 40 pixels of height (header plus padding, the
height of a zero-column table). -/
theorem claim_C6_dimension_monotonicity :
    (∀ t : TableObj, 140 ≤ (calculate_dimensions t).width ∧
      40 ≤ (calculate_dimensions t).height) ∧
    (∀ (t : TableObj) (extra : List Column),
      (calculate_dimensions t).width
          ≤ (calculate_dimensions { t with columns := t.columns ++ extra }).width ∧
      (calculate_dimensions t).height
          ≤ (calculate_dimensions { t with columns := t.columns ++ extra }).height) ∧
    (∀ (t : TableObj) (longer : String), t.name.length ≤ longer.length →
      (calculate_dimensions t).width
          ≤ (calculate_dimensions { t with name := longer }).width ∧
      (calculate_dimensions t).height
          ≤ (calculate_dimensions { t with name := longer }).height) := by
  refine ⟨?_, ?_, ?_⟩
  · intro t
    rw [calculate_dimensions_width, calculate_dimensions_height]
    constructor
    · exact le_max_left _ _
    · have : (0 : ℤ) ≤ (t.columns.length : ℤ) := Int.ofNat_nonneg _
      linarith
  · intro t extra
    have hm : maxTextLength t ≤ maxTextLength { t with columns := t.columns ++ extra } := by
      rw [maxTextLength_eq, maxTextLength_eq]
      simp only [List.map_append, List.foldl_append]
      have h1 := le_foldl_max ((t.columns.map (fun c => c.name.length)).foldl max 0)
        (extra.map (fun c => c.name.length))
      omega
    constructor
    · rw [calculate_dimensions_width, calculate_dimensions_width]
      have : (maxTextLength t : ℤ) ≤ (maxTextLength { t with columns := t.columns ++ extra } : ℤ) := by
        exact_mod_cast hm
      omega
    · rw [calculate_dimensions_height, calculate_dimensions_height]
      simp only [List.length_append]
      have : (t.columns.length : ℤ) ≤ ((t.columns.length + extra.length : ℕ) : ℤ) := by
        push_cast; omega
      linarith
  · intro t longer hlen
    have hm : maxTextLength t ≤ maxTextLength { t with name := longer } := by
      rw [maxTextLength_eq, maxTextLength_eq]
      simp only
      omega
    constructor
    · rw [calculate_dimensions_width, calculate_dimensions_width]
      have : (maxTextLength t : ℤ) ≤ (maxTextLength { t with name := longer } : ℤ) := by
        exact_mod_cast hm
      omega
    · rw [calculate_dimensions_height, calculate_dimensions_height]

/-- Witness for C6's name-length hypothesis at a concrete table. -/
theorem claim_C6_dimension_monotonicity_witness :
    (calculate_dimensions ({ name := "T" } : TableObj)).width
        ≤ (calculate_dimensions ({ name := "Longer" } : TableObj)).width ∧
    (calculate_dimensions ({ name := "T" } : TableObj)).height
        ≤ (calculate_dimensions ({ name := "Longer" } : TableObj)).height :=
  claim_C6_dimension_monotonicity.2.2 { name := "T" } "Longer" (by decide)

/-! ## C10 — boundary-strict intersection semantics -/

theorem rectsDisjoint_iff (a b : Rect) :
    rectsDisjoint a b = true ↔ ¬ RectsInteriorOverlap a b := by
  unfold rectsDisjoint RectsInteriorOverlap
  simp only [Bool.or_eq_true, decide_eq_true_eq, ge_iff_le]
  omega

theorem tablesDisjoint_iff (a b : TableObj) :
    tablesDisjoint a b = true ↔ ¬ TablesInteriorOverlap a b := by
  unfold tablesDisjoint TablesInteriorOverlap
  simp only [Bool.or_eq_true, decide_eq_true_eq, ge_iff_le]
  omega

theorem verify_no_overlaps_eq_zero_iff (l : List TableObj) :
    verify_no_overlaps l = 0 ↔ l.Pairwise (fun a b => ¬ TablesInteriorOverlap a b) := by
  induction l with
  | nil => simp [verify_no_overlaps]
  | cons t ts ih =>
    unfold verify_no_overlaps
    rw [Nat.add_eq_zero, List.length_eq_zero, List.filter_eq_nil_iff, List.pairwise_cons, ih]
    constructor
    · rintro ⟨h1, h2⟩
      refine ⟨fun u hu => ?_, h2⟩
      have := h1 u hu
      simp only [Bool.not_eq_true', Bool.not_eq_false] at this
      exact (tablesDisjoint_iff t u).mp this
    · rintro ⟨h1, h2⟩
      refine ⟨fun u hu => ?_, h2⟩
      simp only [Bool.not_eq_true', Bool.not_eq_false]
      exact (tablesDisjoint_iff t u).mpr (h1 u hu)

/-- C10: intersection is strict at boundaries throughout the public
interface.  `is_area_free` succeeds exactly when the margin-inflated query
shares no *interior* point with any tracked rectangle (edge or corner
contact counts as free), and `verify_no_overlaps` counts exactly the pairs
with interior overlap — in particular a child stacked touching its parent's
bottom edge is never counted as an overlap. -/
theorem claim_C10_strict_boundaries :
    (∀ (occ : List Rect) (x y w h : Int),
      is_area_free occ x y w h = true ↔
        ∀ r ∈ occ, ¬ RectsInteriorOverlap (inflate x y w h) r) ∧
    (∀ l : List TableObj,
      verify_no_overlaps l = 0 ↔ l.Pairwise (fun a b => ¬ TablesInteriorOverlap a b)) ∧
    (∀ a b : TableObj, b.x = a.x → b.y = a.y + a.height → tablesDisjoint a b = true) := by
  refine ⟨?_, verify_no_overlaps_eq_zero_iff, ?_⟩
  · intro occ x y w h
    unfold is_area_free
    rw [List.all_eq_true]
    constructor
    · intro hall r hr
      exact (rectsDisjoint_iff _ _).mp (hall r hr)
    · intro hall r hr
      exact (rectsDisjoint_iff _ _).mpr (hall r hr)
  · intro a b hx hy
    unfold tablesDisjoint
    simp only [Bool.or_eq_true, decide_eq_true_eq, ge_iff_le]
    omega

/-- Witness for C10's touching-stack hypotheses: a child exactly at its
parent's bottom edge is reported as non-overlapping. -/
theorem claim_C10_strict_boundaries_witness :
    tablesDisjoint { name := "P", x := 5, y := 7, width := 100, height := 50 }
      { name := "C", x := 5, y := 57, width := 100, height := 30 } = true :=
  claim_C10_strict_boundaries.2.2
    { name := "P", x := 5, y := 7, width := 100, height := 50 }
    { name := "C", x := 5, y := 57, width := 100, height := 30 } (by decide) (by decide)

/-! ## C3 — connectivity accounting -/

theorem mem_firstDedup_foldl (l acc : List String) (x : String) :
    x ∈ l.foldl (fun acc x => if x ∈ acc then acc else acc ++ [x]) acc ↔ x ∈ acc ∨ x ∈ l := by
  induction l generalizing acc with
  | nil => simp
  | cons b l ih =>
    simp only [List.foldl_cons, ih, List.mem_cons]
    by_cases hb : b ∈ acc
    · simp only [if_pos hb]
      constructor
      · rintro (h | h)
        · exact Or.inl h
        · exact Or.inr (Or.inr h)
      · rintro (h | rfl | h)
        · exact Or.inl h
        · exact Or.inl hb
        · exact Or.inr h
    · simp only [if_neg hb, List.mem_append, List.mem_singleton]
      tauto

theorem mem_firstDedup (l : List String) (x : String) : x ∈ firstDedup l ↔ x ∈ l := by
  unfold firstDedup
  rw [mem_firstDedup_foldl]
  simp

theorem nodup_firstDedup_foldl (l acc : List String) (h : acc.Nodup) :
    (l.foldl (fun acc x => if x ∈ acc then acc else acc ++ [x]) acc).Nodup := by
  induction l generalizing acc with
  | nil => exact h
  | cons b l ih =>
    simp only [List.foldl_cons]
    by_cases hb : b ∈ acc
    · rw [if_pos hb]; exact ih acc h
    · rw [if_neg hb]
      refine ih _ ?_
      simp [List.nodup_append, h, hb]

theorem nodup_firstDedup (l : List String) : (firstDedup l).Nodup :=
  nodup_firstDedup_foldl l [] List.nodup_nil

theorem count_firstDedup (l : List String) (x : String) :
    (firstDedup l).count x = if x ∈ l then 1 else 0 := by
  by_cases hx : x ∈ l
  · rw [if_pos hx]
    have h1 : (firstDedup l).count x ≤ 1 :=
      List.nodup_iff_count_le_one.mp (nodup_firstDedup l) x
    have h2 : 0 < (firstDedup l).count x :=
      List.count_pos_iff.mpr ((mem_firstDedup l x).mpr hx)
    omega
  · rw [if_neg hx]
    refine List.count_eq_zero.mpr ?_
    rw [mem_firstDedup]
    exact hx

theorem length_firstDedup (l : List String) : (firstDedup l).length = l.toFinset.card := by
  have h1 : (firstDedup l).toFinset = l.toFinset := by
    ext a
    simp [List.mem_toFinset, mem_firstDedup]
  rw [← List.toFinset_card_of_nodup (nodup_firstDedup l), h1]

theorem foldl_add_eq_sum (g : α → ℕ) (l : List α) (n : ℕ) :
    l.foldl (fun acc o => acc + g o) n = n + (l.map g).sum := by
  induction l generalizing n with
  | nil => simp
  | cons b l ih => simp [ih]; omega

theorem sum_map_ite_eq_length_filter (p : α → Prop) [DecidablePred p] (l : List α) :
    (l.map (fun o => if p o then 1 else 0)).sum = (l.filter (fun o => decide (p o))).length := by
  induction l with
  | nil => rfl
  | cons b l ih =>
    by_cases hb : p b
    · simp only [List.map_cons, List.sum_cons, if_pos hb, ih, List.filter_cons,
        decide_eq_true_eq, if_pos hb, List.length_cons]
      omega
    · simp [hb, ih]

/-- C3 counterexample: with two foreign-key edges from `B` to `A`, the code
computes `A.incoming = 1` (it counts `A` in `B`'s *deduplicated*
`get_connected_tables()` list), while the claim demands the multiplicity
count 2; for the same reason the `outgoing` sum is 1 while there are 2
foreign-key edges. -/
theorem claim_C3_counterexample :
    ((calculate_table_connections [c3A, c3B]).headI).incoming_connections = 1 ∧
    (((calculate_table_connections [c3A, c3B]).map
        (fun u => u.outgoing_connections)).sum = 1) ∧
    (refTables c3B).count "A" = 2 := by decide

/-- C3 amended: after `calculate_table_connections`, each table's `outgoing`
is the number of *distinct* tables it references, its `incoming` is the
number of *distinct other* tables that reference it (each referencing table
counted once, not per foreign key), and `connections` is their sum;
consequently the `outgoing` values add up to the number of distinct directed
reference pairs (which, for unique table names, form a duplicate-free edge
list). -/
theorem claim_C3_connection_accounting (tables : List TableObj)
    (hnd : (tables.map TableObj.name).Nodup) :
    calculate_table_connections tables = tables.map (fun t =>
      { t with
          outgoing_connections := (refTables t).toFinset.card
          incoming_connections := (tables.filter
            (fun o => decide (o.name ≠ t.name ∧ t.name ∈ refTables o))).length
          connections := (tables.filter
            (fun o => decide (o.name ≠ t.name ∧ t.name ∈ refTables o))).length
            + (refTables t).toFinset.card }) ∧
    ((calculate_table_connections tables).map (fun u => u.outgoing_connections)).sum
      = (distinctEdges tables).length ∧
    (distinctEdges tables).Nodup := by
  have hout : ∀ t : TableObj, (get_connected_tables t).length = (refTables t).toFinset.card :=
    fun t => length_firstDedup (refTables t)
  have hinc : ∀ t : TableObj,
      tables.foldl (fun acc o =>
        if o.name ≠ t.name then acc + (get_connected_tables o).count t.name else acc) 0
      = (tables.filter (fun o => decide (o.name ≠ t.name ∧ t.name ∈ refTables o))).length := by
    intro t
    have hfun : (fun (acc : ℕ) (o : TableObj) =>
        if o.name ≠ t.name then acc + (get_connected_tables o).count t.name else acc)
        = (fun acc o => acc + (if o.name ≠ t.name ∧ t.name ∈ refTables o then 1 else 0)) := by
      funext acc o
      by_cases h1 : o.name ≠ t.name
      · rw [if_pos h1]
        unfold get_connected_tables
        rw [count_firstDedup]
        by_cases h2 : t.name ∈ refTables o
        · rw [if_pos h2, if_pos ⟨h1, h2⟩]
        · rw [if_neg h2, if_neg (fun hc => h2 hc.2)]
      · rw [if_neg h1, if_neg (fun hc => h1 hc.1)]
        omega
    rw [hfun, foldl_add_eq_sum, Nat.zero_add,
      sum_map_ite_eq_length_filter (fun o => o.name ≠ t.name ∧ t.name ∈ refTables o) tables]
  have hmap : calculate_table_connections tables = tables.map (fun t =>
      { t with
          outgoing_connections := (refTables t).toFinset.card
          incoming_connections := (tables.filter
            (fun o => decide (o.name ≠ t.name ∧ t.name ∈ refTables o))).length
          connections := (tables.filter
            (fun o => decide (o.name ≠ t.name ∧ t.name ∈ refTables o))).length
            + (refTables t).toFinset.card }) := by
    unfold calculate_table_connections
    refine List.map_congr_left ?_
    intro t _
    rw [hout t, hinc t]
  refine ⟨hmap, ?_, ?_⟩
  · rw [hmap]
    unfold distinctEdges
    rw [List.length_flatten, List.map_map, List.map_map]
    congr 1
    refine List.map_congr_left ?_
    intro t _
    simp [hout t]
  · unfold distinctEdges
    rw [List.nodup_flatten]
    constructor
    · intro l hl
      rw [List.mem_map] at hl
      obtain ⟨t, _, rfl⟩ := hl
      exact (nodup_firstDedup (refTables t)).map
        (fun a b h => by simpa using congrArg Prod.snd h)
    · have hpw : tables.Pairwise (fun a b => a.name ≠ b.name) := List.pairwise_map.mp hnd
      rw [List.pairwise_map]
      refine hpw.imp ?_
      intro t1 t2 hne p hp1 hp2
      rw [List.mem_map] at hp1 hp2
      obtain ⟨r1, _, rfl⟩ := hp1
      obtain ⟨r2, _, h2⟩ := hp2
      exact hne (by simpa using congrArg Prod.fst h2.symm)

/-- Witness for C3's name-uniqueness hypothesis at the concrete two-table
input. -/
theorem claim_C3_connection_accounting_witness :
    ((calculate_table_connections [c3A, c3B]).map (fun u => u.outgoing_connections)).sum
      = (distinctEdges [c3A, c3B]).length ∧ (distinctEdges [c3A, c3B]).Nodup :=
  (claim_C3_connection_accounting [c3A, c3B] (by decide)).2

/-! ## C4 — sort orders -/

theorem lexLt_asymm : ∀ a b : List Char, lexLt a b = true → lexLt b a = false
  | [], [] => by simp [lexLt]
  | [], _ :: _ => by simp [lexLt]
  | _ :: _, [] => by simp [lexLt]
  | a :: as, b :: bs => by
    intro hab
    by_cases h1 : a.toNat < b.toNat
    · simp [lexLt, show ¬ b.toNat < a.toNat by omega, show ¬ b.toNat = a.toNat by omega]
    · by_cases h2 : a.toNat = b.toNat
      · have hrec : lexLt as bs = true := by simpa [lexLt, h1, h2] using hab
        simp [lexLt, show ¬ b.toNat < a.toNat by omega, show b.toNat = a.toNat by omega,
          lexLt_asymm as bs hrec]
      · exact absurd hab (by simp [lexLt, h1, h2])

theorem lexLt_trans : ∀ a b c : List Char,
    lexLt a b = true → lexLt b c = true → lexLt a c = true
  | [], b, c, hab, hbc => by
    cases c with
    | nil =>
      cases b with
      | nil => simp [lexLt] at hbc
      | cons y ys => simp [lexLt] at hbc
    | cons z cs => simp [lexLt]
  | _ :: _, [], c, hab, _ => by simp [lexLt] at hab
  | a :: as, b :: bs, [], _, hbc => by simp [lexLt] at hbc
  | a :: as, b :: bs, c :: cs, hab, hbc => by
    by_cases h1 : a.toNat < b.toNat <;> by_cases h2 : b.toNat < c.toNat
    · simp [lexLt, show a.toNat < c.toNat by omega]
    · by_cases h3 : b.toNat = c.toNat
      · simp [lexLt, show a.toNat < c.toNat by omega]
      · simp [lexLt, h2, h3] at hbc
    · by_cases h4 : a.toNat = b.toNat
      · simp [lexLt, show a.toNat < c.toNat by omega]
      · simp [lexLt, h1, h4] at hab
    · by_cases h4 : a.toNat = b.toNat
      · by_cases h3 : b.toNat = c.toNat
        · have hab2 : lexLt as bs = true := by simpa [lexLt, h1, h4] using hab
          have hbc2 : lexLt bs cs = true := by simpa [lexLt, h2, h3] using hbc
          simp [lexLt, show ¬ a.toNat < c.toNat by omega, show a.toNat = c.toNat by omega,
            lexLt_trans as bs cs hab2 hbc2]
        · simp [lexLt, h2, h3] at hbc
      · simp [lexLt, h1, h4] at hab

theorem strLt_asymm (a b : String) (h : strLt a b = true) : strLt b a = false :=
  lexLt_asymm a.data b.data h

theorem strLt_trans (a b c : String) (h1 : strLt a b = true) (h2 : strLt b c = true) :
    strLt a c = true :=
  lexLt_trans a.data b.data c.data h1 h2

theorem mem_insertOrd (lt : α → α → Bool) (x : α) (l : List α) (w : α) :
    w ∈ insertOrd lt x l ↔ w = x ∨ w ∈ l := by
  induction l with
  | nil => simp [insertOrd]
  | cons y ys ih =>
    simp only [insertOrd]
    split_ifs with h
    · simp only [List.mem_cons]
    · simp only [List.mem_cons, ih]
      tauto


theorem insertOrd_perm (lt : α → α → Bool) (x : α) (l : List α) :
    List.Perm (insertOrd lt x l) (x :: l) := by
  induction l with
  | nil => exact List.Perm.refl _
  | cons y ys ih =>
    simp only [insertOrd]
    split_ifs with h
    · exact List.Perm.refl _
    · exact List.Perm.trans (List.Perm.cons y ih) (List.Perm.swap x y ys)

theorem sortByLt_perm_aux (lt : α → α → Bool) (l acc : List α) :
    List.Perm (l.foldl (fun acc x => insertOrd lt x acc) acc) (acc ++ l) := by
  induction l generalizing acc with
  | nil => simp
  | cons x xs ih =>
    simp only [List.foldl_cons]
    refine List.Perm.trans (ih (insertOrd lt x acc)) ?_
    refine List.Perm.trans (List.Perm.append_right xs (insertOrd_perm lt x acc)) ?_
    exact List.perm_middle.symm

/-- Python `list.sort` permutes the list. -/
theorem sortByLt_perm (lt : α → α → Bool) (l : List α) : List.Perm (sortByLt lt l) l := by
  have := sortByLt_perm_aux lt l []
  simpa [sortByLt] using this

theorem insertOrd_pairwise (lt : α → α → Bool)
    (hasym : ∀ a b, lt a b = true → lt b a = false)
    (htrans : ∀ a b c, lt a b = true → lt b c = true → lt a c = true)
    (x : α) (l : List α) (hl : l.Pairwise (fun a b => lt b a = false)) :
    (insertOrd lt x l).Pairwise (fun a b => lt b a = false) := by
  induction l with
  | nil => simp [insertOrd]
  | cons y ys ih =>
    rw [List.pairwise_cons] at hl
    obtain ⟨hy, hys⟩ := hl
    simp only [insertOrd]
    split_ifs with h
    · rw [List.pairwise_cons]
      refine ⟨?_, List.pairwise_cons.mpr ⟨hy, hys⟩⟩
      intro w hw
      rcases List.mem_cons.mp hw with rfl | hw2
      · exact hasym x w h
      · by_contra hcon
        rw [Bool.not_eq_false] at hcon
        have h2 := htrans w x y hcon h
        rw [hy w hw2] at h2
        cases h2
    · rw [Bool.not_eq_true] at h
      rw [List.pairwise_cons]
      refine ⟨?_, ih hys⟩
      intro w hw
      rcases (mem_insertOrd lt x ys w).mp hw with rfl | hw2
      · exact h
      · exact hy w hw2

/-- Python `list.sort` with a strict asymmetric transitive comparator sorts
the list (every earlier element is not-greater than every later one). -/
theorem sortByLt_pairwise (lt : α → α → Bool)
    (hasym : ∀ a b, lt a b = true → lt b a = false)
    (htrans : ∀ a b c, lt a b = true → lt b c = true → lt a c = true)
    (l : List α) : (sortByLt lt l).Pairwise (fun a b => lt b a = false) := by
  suffices h : ∀ acc : List α, acc.Pairwise (fun a b => lt b a = false) →
      (l.foldl (fun acc x => insertOrd lt x acc) acc).Pairwise (fun a b => lt b a = false) by
    exact h [] List.Pairwise.nil
  induction l with
  | nil => intro acc hacc; exact hacc
  | cons x xs ih =>
    intro acc hacc
    exact ih (insertOrd lt x acc) (insertOrd_pairwise lt hasym htrans x acc hacc)

theorem masterLt_asymm (a b : TEntry) (h : masterLt a b = true) : masterLt b a = false := by
  unfold masterLt at h ⊢
  simp only [Bool.or_eq_true, Bool.and_eq_true, decide_eq_true_eq] at h
  rcases h with h | ⟨h1, h2⟩
  · simp only [Bool.or_eq_false_iff, Bool.and_eq_false_iff]
    constructor
    · simp only [decide_eq_false_iff_not]; omega
    · left; simp only [decide_eq_false_iff_not]; omega
  · simp only [Bool.or_eq_false_iff, Bool.and_eq_false_iff]
    constructor
    · simp only [decide_eq_false_iff_not]; omega
    · right; exact strLt_asymm _ _ h2

theorem masterLt_trans (a b c : TEntry) (h1 : masterLt a b = true)
    (h2 : masterLt b c = true) : masterLt a c = true := by
  unfold masterLt at h1 h2 ⊢
  simp only [Bool.or_eq_true, Bool.and_eq_true, decide_eq_true_eq] at h1 h2 ⊢
  rcases h1 with h1 | ⟨h1a, h1b⟩ <;> rcases h2 with h2 | ⟨h2a, h2b⟩
  · left; omega
  · left; omega
  · left; omega
  · right; exact ⟨by omega, strLt_trans _ _ _ h2b h1b⟩

theorem remainingLt_asymm (a b : TEntry) (h : remainingLt a b = true) :
    remainingLt b a = false := by
  unfold remainingLt at h ⊢
  simp only [Bool.or_eq_true, Bool.and_eq_true, decide_eq_true_eq] at h
  rcases h with h | ⟨h1, h2⟩
  · simp only [Bool.or_eq_false_iff, Bool.and_eq_false_iff]
    constructor
    · simp only [decide_eq_false_iff_not]; omega
    · left; simp only [decide_eq_false_iff_not]; omega
  · simp only [Bool.or_eq_false_iff, Bool.and_eq_false_iff]
    constructor
    · simp only [decide_eq_false_iff_not]; omega
    · right; exact strLt_asymm _ _ h2

theorem remainingLt_trans (a b c : TEntry) (h1 : remainingLt a b = true)
    (h2 : remainingLt b c = true) : remainingLt a c = true := by
  unfold remainingLt at h1 h2 ⊢
  simp only [Bool.or_eq_true, Bool.and_eq_true, decide_eq_true_eq] at h1 h2 ⊢
  rcases h1 with h1 | ⟨h1a, h1b⟩ <;> rcases h2 with h2 | ⟨h2a, h2b⟩
  · left; omega
  · left; omega
  · left; omega
  · right; exact ⟨by omega, strLt_trans _ _ _ h1b h2b⟩

theorem nameLt_asymm (a b : TEntry) (h : nameLt a b = true) : nameLt b a = false :=
  strLt_asymm _ _ h

theorem nameLt_trans (a b c : TEntry) (h1 : nameLt a b = true) (h2 : nameLt b c = true) :
    nameLt a c = true :=
  strLt_trans _ _ _ h1 h2

/-- C4 counterexample: the master ranking
(`sort(key=(connections_num, table_name), reverse=True)`) puts two entries
with equal connection counts in name-*descending* order, so it does not
satisfy the claimed name-ascending tie-break. -/
theorem claim_C4_counterexample :
    sortByLt masterLt [c4A, c4B] = [c4B, c4A] ∧
    ¬ ConnDescNameAsc (sortByLt masterLt [c4A, c4B]) := by
  constructor
  · decide
  · rw [show sortByLt masterLt [c4A, c4B] = [c4B, c4A] from by decide]
    unfold ConnDescNameAsc
    decide

/-- C4 amended: each sort result is a permutation of its input; the
residual-grid-fallback sort and the name sorts (orphans, child stacks) order
by connection count descending then name ascending, but the master ranking
(`reverse=True` over the `(connections, name)` pair) breaks connection-count
ties by name *descending*. -/
theorem claim_C4_sort_orders (l : List TEntry) :
    (List.Perm (sortByLt remainingLt l) l ∧ ConnDescNameAsc (sortByLt remainingLt l)) ∧
    (List.Perm (sortByLt masterLt l) l ∧ ConnDescNameDesc (sortByLt masterLt l)) ∧
    (List.Perm (sortByLt nameLt l) l ∧
      (sortByLt nameLt l).Pairwise (fun a b => strLt b.table_name a.table_name = false)) := by
  refine ⟨⟨sortByLt_perm _ l, ?_⟩, ⟨sortByLt_perm _ l, ?_⟩, ⟨sortByLt_perm _ l, ?_⟩⟩
  · refine (sortByLt_pairwise remainingLt remainingLt_asymm remainingLt_trans l).imp ?_
    intro a b h
    unfold remainingLt at h
    simp only [Bool.or_eq_false_iff, Bool.and_eq_false_iff, decide_eq_false_iff_not] at h
    obtain ⟨h1, h2⟩ := h
    rcases Nat.lt_or_ge b.connections_num a.connections_num with hlt | hge
    · exact Or.inl hlt
    · have heq : a.connections_num = b.connections_num := by omega
      rcases h2 with h2 | h2
      · exact absurd heq.symm h2
      · exact Or.inr ⟨heq, h2⟩
  · refine (sortByLt_pairwise masterLt masterLt_asymm masterLt_trans l).imp ?_
    intro a b h
    unfold masterLt at h
    simp only [Bool.or_eq_false_iff, Bool.and_eq_false_iff, decide_eq_false_iff_not] at h
    obtain ⟨h1, h2⟩ := h
    rcases Nat.lt_or_ge b.connections_num a.connections_num with hlt | hge
    · exact Or.inl hlt
    · have heq : a.connections_num = b.connections_num := by omega
      rcases h2 with h2 | h2
      · exact absurd heq.symm h2
      · exact Or.inr ⟨heq, h2⟩
  · exact sortByLt_pairwise nameLt nameLt_asymm nameLt_trans l

/-! ## C7 — orphan placement -/

/-- C7 counterexample: for one small orphan table the block estimate is
610x78, which fits the initial 2400x1800 canvas, yet a complete layout run
still grows the canvas to 3010x1878 (the source grows it whenever any
orphan exists, because it compares `canvas_width < canvas_width + area`).
So "grown ... only if the orphan block would not fit" is false. -/
theorem claim_C7_counterexample :
    OrphanBlockFits 610 78 2400 1800 ∧
    (position_tables_intelligently trigZero c7Input).gen.canvas_width = 2400 + 610 ∧
    (position_tables_intelligently trigZero c7Input).gen.canvas_height = 1800 + 78 := by
  refine ⟨⟨by norm_num, by norm_num⟩, ?_, ?_⟩ <;> decide

/-! ### Store and fold helper lemmas -/

theorem updTable_tables (nm : String) (f : TableObj → TableObj) (g : GenState) :
    (updTable nm f g).tables = g.tables.map (fun t => if t.name = nm then f t else t) := rfl

theorem updTable_canvas_width (nm f g) : (updTable nm f g).canvas_width = g.canvas_width := rfl

theorem updTable_canvas_height (nm f g) : (updTable nm f g).canvas_height = g.canvas_height := rfl

theorem updTable_occupied (nm f g) : (updTable nm f g).occupied_areas = g.occupied_areas := rfl

theorem find?_name_map (f : TableObj → TableObj) (hf : ∀ t, (f t).name = t.name)
    (nm nm2 : String) (l : List TableObj) :
    (l.map (fun t => if t.name = nm then f t else t)).find? (fun t => t.name = nm2)
      = (l.find? (fun t => t.name = nm2)).map (fun t => if t.name = nm then f t else t) := by
  induction l with
  | nil => rfl
  | cons t ts ih =>
    by_cases h2 : t.name = nm2
    · by_cases ht : t.name = nm
      · rw [List.map_cons, if_pos ht, List.find?_cons_of_pos _ (by simp [hf, h2]),
          List.find?_cons_of_pos _ (by simp [h2])]
        simp [ht]
      · rw [List.map_cons, if_neg ht, List.find?_cons_of_pos _ (by simp [h2]),
          List.find?_cons_of_pos _ (by simp [h2])]
        simp [ht]
    · by_cases ht : t.name = nm
      · rw [List.map_cons, if_pos ht, List.find?_cons_of_neg _ (by simp [hf, h2]),
          List.find?_cons_of_neg _ (by simp [h2]), ih]
      · rw [List.map_cons, if_neg ht, List.find?_cons_of_neg _ (by simp [h2]),
          List.find?_cons_of_neg _ (by simp [h2]), ih]

theorem findTable_updTable_ne (nm : String) (f : TableObj → TableObj) (g : GenState)
    (nm2 : String) (hf : ∀ t, (f t).name = t.name) (h : nm2 ≠ nm) :
    findTable (updTable nm f g) nm2 = findTable g nm2 := by
  unfold findTable
  rw [updTable_tables, find?_name_map f hf]
  cases hfind : g.tables.find? (fun t => t.name = nm2) with
  | none => rfl
  | some t =>
    have := List.find?_some hfind
    simp only [decide_eq_true_eq] at this
    simp [this, h]

theorem findTable_updTable_proj (proj : TableObj → β) (nm : String)
    (f : TableObj → TableObj) (g : GenState) (nm2 : String)
    (hf : ∀ t, (f t).name = t.name) (hp : ∀ t, proj (f t) = proj t) :
    proj (findTable (updTable nm f g) nm2) = proj (findTable g nm2) := by
  unfold findTable
  rw [updTable_tables, find?_name_map f hf]
  cases hfind : g.tables.find? (fun t => t.name = nm2) with
  | none => rfl
  | some t =>
    by_cases ht : t.name = nm
    · simp [ht, hp]
    · simp [ht]

theorem findTable_updTable_self (nm : String) (f : TableObj → TableObj) (g : GenState)
    (hf : ∀ t, (f t).name = t.name) (t : TableObj)
    (hfind : g.tables.find? (fun u => u.name = nm) = some t) :
    findTable (updTable nm f g) nm = f t := by
  unfold findTable
  rw [updTable_tables, find?_name_map f hf, hfind]
  have := List.find?_some hfind
  simp only [decide_eq_true_eq] at this
  simp [this]

theorem placeTable_entries (nm : String) (x y : Int) (st : PlanState) :
    (placeTable nm x y st).entries = markEntryPlaced nm st.entries := rfl

theorem placeTable_tables_placed (nm x y st) :
    (placeTable nm x y st).tables_placed = st.tables_placed + 1 := rfl

theorem placeTable_max_tables (nm x y st) :
    (placeTable nm x y st).max_tables = st.max_tables := rfl

theorem placeTable_flag (nm x y st) : (placeTable nm x y st).flag = st.flag := rfl

theorem placeTable_canvas_width (nm x y st) :
    (placeTable nm x y st).gen.canvas_width = st.gen.canvas_width := rfl

theorem placeTable_canvas_height (nm x y st) :
    (placeTable nm x y st).gen.canvas_height = st.gen.canvas_height := rfl

theorem placeTable_gen_tables (nm x y st) :
    (placeTable nm x y st).gen.tables =
      (updTable nm (fun u => { u with x := x, y := y, is_positioned := true }) st.gen).tables := rfl

theorem placeTable_findTable_proj_wh (nm x y st nm2) :
    (findTable (placeTable nm x y st).gen nm2).width = (findTable st.gen nm2).width ∧
    (findTable (placeTable nm x y st).gen nm2).height = (findTable st.gen nm2).height := by
  have hgen : (placeTable nm x y st).gen.tables =
      (updTable nm (fun u => { u with x := x, y := y, is_positioned := true }) st.gen).tables :=
    rfl
  have h1 : findTable (placeTable nm x y st).gen nm2 =
      findTable (updTable nm (fun u => { u with x := x, y := y, is_positioned := true }) st.gen)
        nm2 := by
    unfold findTable
    rw [hgen]
  rw [h1]
  exact ⟨findTable_updTable_proj (fun t => t.width) nm _ st.gen nm2 (fun t => rfl) (fun t => rfl),
    findTable_updTable_proj (fun t => t.height) nm _ st.gen nm2 (fun t => rfl) (fun t => rfl)⟩

theorem markEntryPlaced_flipPlaced (nm : String) (NS : List String) (es : List TEntry) :
    markEntryPlaced nm (flipPlaced NS es) = flipPlaced (nm :: NS) es := by
  unfold markEntryPlaced flipPlaced
  rw [List.map_map]
  refine List.map_congr_left ?_
  intro e _
  obtain ⟨n, c, cn, sc, w, h, p⟩ := e
  by_cases h1 : n ∈ NS
  · by_cases h2 : n = nm
    · subst h2
      simp [h1]
    · simp [h1, h2]
  · by_cases h2 : n = nm
    · subst h2
      simp [h1]
    · simp [h1, h2]

theorem flipPlaced_nil (es : List TEntry) : flipPlaced [] es = es := by
  unfold flipPlaced
  simp

theorem flipPlaced_congr_mem (NS NS2 : List String) (es : List TEntry)
    (h : ∀ nm, nm ∈ NS ↔ nm ∈ NS2) : flipPlaced NS es = flipPlaced NS2 es := by
  unfold flipPlaced
  refine List.map_congr_left ?_
  intro e _
  by_cases h1 : e.table_name ∈ NS
  · rw [if_pos h1, if_pos ((h _).mp h1)]
  · rw [if_neg h1, if_neg (fun hc => h1 ((h _).mpr hc))]

theorem foldl_max_int_le_iff (a n : ℤ) (l : List ℤ) :
    l.foldl max a ≤ n ↔ a ≤ n ∧ ∀ x ∈ l, x ≤ n := by
  induction l generalizing a with
  | nil => simp
  | cons b l ih =>
    simp only [List.foldl_cons, ih (max a b), List.mem_cons]
    constructor
    · rintro ⟨hab, hl⟩
      refine ⟨le_trans (le_max_left _ _) hab, ?_⟩
      rintro x (rfl | hx)
      · exact le_trans (le_max_right _ _) hab
      · exact hl x hx
    · rintro ⟨ha, hl⟩
      exact ⟨max_le ha (hl b (Or.inl rfl)), fun x hx => hl x (Or.inr hx)⟩

theorem le_foldl_max_int (a : ℤ) (l : List ℤ) : a ≤ l.foldl max a := by
  by_contra h
  push_neg at h
  have := (foldl_max_int_le_iff a (l.foldl max a) l).mp le_rfl
  omega

theorem mem_le_foldl_max_int (a x : ℤ) (l : List ℤ) (hx : x ∈ l) : x ≤ l.foldl max a := by
  induction l generalizing a with
  | nil => cases hx
  | cons b l ih =>
    rcases List.mem_cons.mp hx with rfl | hx2
    · exact le_trans (le_max_right a x) (le_foldl_max_int _ l)
    · exact ih (max a b) hx2

theorem headI_mem {l : List ℤ} (h : l ≠ []) : l.headI ∈ l := by
  cases l with
  | nil => exact absurd rfl h
  | cons b bs => exact List.mem_cons_self b bs

theorem le_listMax (l : List ℤ) (x : ℤ) (hx : x ∈ l) : x ≤ listMax l :=
  mem_le_foldl_max_int _ x l hx

theorem listMax_le (l : List ℤ) (B : ℤ) (hne : l ≠ []) (h : ∀ x ∈ l, x ≤ B) :
    listMax l ≤ B :=
  (foldl_max_int_le_iff _ B l).mpr ⟨h _ (headI_mem hne), h⟩

theorem listMax_nonneg (l : List ℤ) (hne : l ≠ []) (h : ∀ x ∈ l, 0 ≤ x) : 0 ≤ listMax l :=
  le_trans (h _ (headI_mem hne)) (le_listMax l _ (headI_mem hne))

theorem chunksOfAux_flatten (n : Nat) (hn : 0 < n) :
    ∀ (fuel : Nat) (l : List α), l.length ≤ fuel → (chunksOfAux n fuel l).flatten = l := by
  intro fuel
  induction fuel with
  | zero =>
    intro l hl
    have hnil : l = [] := List.eq_nil_of_length_eq_zero (by omega)
    subst hnil
    rfl
  | succ m ih =>
    intro l hl
    cases l with
    | nil => rfl
    | cons x xs =>
      show ((x :: xs).take n :: chunksOfAux n m ((x :: xs).drop n)).flatten = x :: xs
      rw [List.flatten_cons, ih ((x :: xs).drop n)
        (by simp only [List.length_drop, List.length_cons] at hl ⊢; omega),
        List.take_append_drop]

theorem chunksOf_flatten (n : Nat) (hn : 0 < n) (l : List α) : (chunksOf n l).flatten = l :=
  chunksOfAux_flatten n hn l.length l le_rfl

theorem chunksOfAux_mem (n : Nat) (hn : 0 < n) :
    ∀ (fuel : Nat) (l : List α) (c : List α), c ∈ chunksOfAux n fuel l →
      c.length ≤ n ∧ c ≠ [] ∧ ∀ x ∈ c, x ∈ l := by
  intro fuel
  induction fuel with
  | zero =>
    intro l c hc
    simp [chunksOfAux] at hc
  | succ m ih =>
    intro l c hc
    cases l with
    | nil => cases hc
    | cons a as =>
      rcases List.mem_cons.mp hc with rfl | hc2
      · refine ⟨List.length_take_le _ _, ?_, fun x hx => List.mem_of_mem_take hx⟩
        cases n with
        | zero => omega
        | succ k => simp [List.take_succ_cons]
      · obtain ⟨h1, h2, h3⟩ := ih ((a :: as).drop n) c hc2
        exact ⟨h1, h2, fun x hx => List.mem_of_mem_drop (h3 x hx)⟩

theorem chunksOf_mem (n : Nat) (hn : 0 < n) (l : List α) (c : List α)
    (hc : c ∈ chunksOf n l) : c.length ≤ n ∧ c ≠ [] ∧ ∀ x ∈ c, x ∈ l :=
  chunksOfAux_mem n hn l.length l c hc

theorem chunksOfAux_length (n : Nat) (hn : 0 < n) :
    ∀ (fuel : Nat) (l : List α), l.length ≤ fuel →
      (chunksOfAux n fuel l).length = (l.length + n - 1) / n := by
  intro fuel
  induction fuel with
  | zero =>
    intro l hl
    have hnil : l = [] := List.eq_nil_of_length_eq_zero (by omega)
    subst hnil
    show 0 = (0 + n - 1) / n
    rw [Nat.div_eq_of_lt (by omega)]
  | succ m ih =>
    intro l hl
    cases l with
    | nil =>
      show 0 = (0 + n - 1) / n
      rw [Nat.div_eq_of_lt (by omega)]
    | cons a as =>
      show (chunksOfAux n m ((a :: as).drop n)).length + 1 = ((a :: as).length + n - 1) / n
      rw [ih ((a :: as).drop n)
        (by simp only [List.length_drop, List.length_cons] at hl ⊢; omega)]
      rw [List.length_drop]
      rcases le_or_lt (a :: as).length n with hle | hlt
      · have h0 : (a :: as).length - n = 0 := by omega
        rw [h0]
        rw [Nat.div_eq_of_lt (by omega)]
        have hlen : 0 < (a :: as).length := by simp
        rw [Nat.div_eq_sub_div (by omega) (by omega)]
        rw [Nat.div_eq_of_lt (by omega)]
      · have : (a :: as).length - n + n - 1 = (a :: as).length - 1 := by omega
        have h2 : (a :: as).length + n - 1 = ((a :: as).length - 1) + n := by omega
        rw [h2, Nat.add_div_right _ hn]
        rw [this]

theorem chunksOf_length (n : Nat) (hn : 0 < n) (l : List α) :
    (chunksOf n l).length = (l.length + n - 1) / n :=
  chunksOfAux_length n hn l.length l le_rfl

theorem flipPlaced_flipPlaced (A B : List String) (es : List TEntry) :
    flipPlaced A (flipPlaced B es) = flipPlaced (A ++ B) es := by
  unfold flipPlaced
  rw [List.map_map]
  refine List.map_congr_left ?_
  intro e _
  obtain ⟨n, c, cn, sc, w, h, p⟩ := e
  by_cases h1 : n ∈ B
  · by_cases h2 : n ∈ A <;> simp [h1, h2]
  · by_cases h2 : n ∈ A <;> simp [h1, h2]

theorem markEntryPlaced_eq_flip (nm : String) (es : List TEntry) :
    markEntryPlaced nm es = flipPlaced [nm] es := by
  rw [show es = flipPlaced [] es from (flipPlaced_nil es).symm, markEntryPlaced_flipPlaced,
    flipPlaced_nil]

/-- Cumulative effect of one orphan row fold: entries flipped, counters
advanced, canvas untouched, per-name sizes untouched, and every table either
untouched or placed at this row's y with x strictly right of `lb`. -/
theorem orphanRowFold_effect (cy : Int) :
    ∀ (rl : List TEntry) (st : PlanState) (cx lb maxW : Int),
      st.tables_placed + rl.length ≤ st.max_tables →
      (∀ e ∈ rl, (findTable st.gen e.table_name).width ≤ maxW) →
      lb + (rl.length : Int) * (maxW + MARGIN) ≤ cx →
      0 ≤ maxW →
      (rl.foldl (orphanRowStep cy) (st, cx)).1.entries
          = flipPlaced (rl.map TEntry.table_name) st.entries ∧
      (rl.foldl (orphanRowStep cy) (st, cx)).1.tables_placed
          = st.tables_placed + rl.length ∧
      (rl.foldl (orphanRowStep cy) (st, cx)).1.max_tables = st.max_tables ∧
      (rl.foldl (orphanRowStep cy) (st, cx)).1.flag = st.flag ∧
      (rl.foldl (orphanRowStep cy) (st, cx)).1.gen.canvas_width = st.gen.canvas_width ∧
      (rl.foldl (orphanRowStep cy) (st, cx)).1.gen.canvas_height = st.gen.canvas_height ∧
      (∀ nm, (findTable (rl.foldl (orphanRowStep cy) (st, cx)).1.gen nm).width
              = (findTable st.gen nm).width ∧
             (findTable (rl.foldl (orphanRowStep cy) (st, cx)).1.gen nm).height
              = (findTable st.gen nm).height) ∧
      (∀ nm t, (rl.foldl (orphanRowStep cy) (st, cx)).1.gen.tables.find?
            (fun u => u.name = nm) = some t →
        st.gen.tables.find? (fun u => u.name = nm) = some t ∨ (lb < t.x ∧ t.y = cy)) ∧
      (∀ e2 ∈ rl, ∀ t, (rl.foldl (orphanRowStep cy) (st, cx)).1.gen.tables.find?
            (fun u => u.name = e2.table_name) = some t →
        lb < t.x ∧ t.y = cy) := by
  intro rl
  induction rl with
  | nil =>
    intro st cx lb maxW hcap hw hcx hmw
    refine ⟨(flipPlaced_nil st.entries).symm, by simp, rfl, rfl, rfl, rfl,
      fun nm => ⟨rfl, rfl⟩, fun nm t ht => Or.inl ht, fun e2 he2 => absurd he2 (by simp)⟩
  | cons e rl ih =>
    intro st cx lb maxW hcap hw hcx hmw
    have hlt : ¬ st.tables_placed ≥ st.max_tables := by
      simp only [List.length_cons] at hcap
      omega
    have hstep : orphanRowStep cy (st, cx) e =
        (placeTable e.table_name (cx - (findTable st.gen e.table_name).width) cy st,
         cx - (findTable st.gen e.table_name).width - MARGIN) := by
      show (if st.tables_placed ≥ st.max_tables then (st, cx)
        else (placeTable e.table_name (cx - (findTable st.gen e.table_name).width) cy st,
              cx - (findTable st.gen e.table_name).width - MARGIN)) = _
      rw [if_neg hlt]
    have hfold : (e :: rl).foldl (orphanRowStep cy) (st, cx)
        = rl.foldl (orphanRowStep cy)
            (placeTable e.table_name (cx - (findTable st.gen e.table_name).width) cy st,
             cx - (findTable st.gen e.table_name).width - MARGIN) := by
      rw [List.foldl_cons, hstep]
    have hwle : (findTable st.gen e.table_name).width ≤ maxW :=
      hw e (List.mem_cons_self e rl)
    have hcap1 : (placeTable e.table_name (cx - (findTable st.gen e.table_name).width) cy
        st).tables_placed + rl.length
        ≤ (placeTable e.table_name (cx - (findTable st.gen e.table_name).width) cy
            st).max_tables := by
      rw [placeTable_tables_placed, placeTable_max_tables]
      simp only [List.length_cons] at hcap
      omega
    have hw1 : ∀ e2 ∈ rl, (findTable (placeTable e.table_name
        (cx - (findTable st.gen e.table_name).width) cy st).gen e2.table_name).width
        ≤ maxW := by
      intro e2 he2
      rw [(placeTable_findTable_proj_wh _ _ _ _ _).1]
      exact hw e2 (List.mem_cons_of_mem e he2)
    have hcx1 : lb + (rl.length : Int) * (maxW + MARGIN)
        ≤ cx - (findTable st.gen e.table_name).width - MARGIN := by
      simp only [List.length_cons] at hcx
      push_cast at hcx ⊢
      have h0 : (0 : Int) ≤ (rl.length : Int) := Int.ofNat_nonneg _
      unfold MARGIN at hcx ⊢
      nlinarith
    obtain ⟨ih1, ih2, ih3, ih4, ih5, ih6, ih7, ih8, ih9⟩ :=
      ih (placeTable e.table_name (cx - (findTable st.gen e.table_name).width) cy st)
        (cx - (findTable st.gen e.table_name).width - MARGIN) lb maxW hcap1 hw1 hcx1 hmw
    have hx2 : lb < cx - (findTable st.gen e.table_name).width := by
      simp only [List.length_cons] at hcx
      push_cast at hcx
      have h0 : (0 : Int) ≤ (rl.length : Int) := Int.ofNat_nonneg _
      unfold MARGIN at hcx
      nlinarith
    have hstep1 : ∀ nm t, (placeTable e.table_name
          (cx - (findTable st.gen e.table_name).width) cy st).gen.tables.find?
          (fun u => u.name = nm) = some t →
        st.gen.tables.find? (fun u => u.name = nm) = some t ∨ (lb < t.x ∧ t.y = cy) := by
      intro nm t h1
      rw [placeTable_gen_tables, updTable_tables,
        find?_name_map (fun u =>
          { u with x := cx - (findTable st.gen e.table_name).width, y := cy,
                   is_positioned := true }) (fun u => rfl) e.table_name nm] at h1
      cases hfind : st.gen.tables.find? (fun u => u.name = nm) with
      | none => rw [hfind] at h1; cases h1
      | some u =>
        rw [hfind] at h1
        simp only [Option.map] at h1
        by_cases hu : u.name = e.table_name
        · rw [if_pos hu] at h1
          refine Or.inr ?_
          have ht3 : t = { u with
                            x := cx - (findTable st.gen e.table_name).width,
                            y := cy, is_positioned := true } := (Option.some.inj h1).symm
          rw [ht3]
          exact ⟨hx2, rfl⟩
        · rw [if_neg hu] at h1
          injection h1 with h2
          refine Or.inl ?_
          rw [← h2]
    have hstep1self : ∀ t, (placeTable e.table_name
          (cx - (findTable st.gen e.table_name).width) cy st).gen.tables.find?
          (fun u => u.name = e.table_name) = some t → lb < t.x ∧ t.y = cy := by
      intro t h1
      rw [placeTable_gen_tables, updTable_tables,
        find?_name_map (fun u =>
          { u with x := cx - (findTable st.gen e.table_name).width, y := cy,
                   is_positioned := true }) (fun u => rfl) e.table_name e.table_name] at h1
      cases hfind : st.gen.tables.find? (fun u => u.name = e.table_name) with
      | none => rw [hfind] at h1; cases h1
      | some u =>
        rw [hfind] at h1
        simp only [Option.map] at h1
        have hu : u.name = e.table_name := by
          have := List.find?_some hfind
          simpa using this
        rw [if_pos hu] at h1
        have ht3 : t = { u with
                          x := cx - (findTable st.gen e.table_name).width,
                          y := cy, is_positioned := true } := (Option.some.inj h1).symm
        rw [ht3]
        exact ⟨hx2, rfl⟩
    rw [hfold]
    refine ⟨?_, ?_, ?_, ?_, ?_, ?_, ?_, ?_, ?_⟩
    · rw [ih1, placeTable_entries, markEntryPlaced_eq_flip, flipPlaced_flipPlaced]
      refine flipPlaced_congr_mem _ _ _ ?_
      intro nm
      simp only [List.mem_append, List.mem_singleton, List.map_cons, List.mem_cons]
      tauto
    · rw [ih2, placeTable_tables_placed]
      simp only [List.length_cons]
      omega
    · rw [ih3, placeTable_max_tables]
    · rw [ih4, placeTable_flag]
    · rw [ih5, placeTable_canvas_width]
    · rw [ih6, placeTable_canvas_height]
    · intro nm
      rw [(ih7 nm).1, (ih7 nm).2, (placeTable_findTable_proj_wh _ _ _ _ _).1,
        (placeTable_findTable_proj_wh _ _ _ _ _).2]
      exact ⟨rfl, rfl⟩
    · intro nm t ht
      rcases ih8 nm t ht with h1 | h1
      · exact hstep1 nm t h1
      · exact Or.inr h1
    · intro e2 he2 t ht
      rcases List.mem_cons.mp he2 with rfl | he2r
      · rcases ih8 e2.table_name t ht with h1 | h1
        · exact hstep1self t h1
        · exact h1
      · exact ih9 e2 he2r t ht

/-- Cumulative effect of the bottom-to-top row placement: entries of all
rows flipped, counters advanced, canvas untouched, per-name sizes untouched,
and every table either untouched or placed strictly right of `lbX` and
strictly below `lbY`. -/
theorem placeOrphanRowsRev_effect :
    ∀ (rows : List (List TEntry)) (st : PlanState) (cy lbX lbY maxW maxH : Int),
      st.tables_placed + (rows.map List.length).sum ≤ st.max_tables →
      (∀ row ∈ rows, row ≠ [] ∧ row.length ≤ 4) →
      (∀ row ∈ rows, ∀ e ∈ row, (findTable st.gen e.table_name).width ≤ maxW ∧
          (findTable st.gen e.table_name).height ≤ maxH) →
      lbY + (rows.length : Int) * (maxH + MARGIN) ≤ cy →
      lbX + 4 * (maxW + MARGIN) ≤ st.gen.canvas_width - MARGIN →
      0 ≤ maxW → 0 ≤ maxH →
      (placeOrphanRowsRev rows st cy).entries
          = flipPlaced (rows.flatten.map TEntry.table_name) st.entries ∧
      (placeOrphanRowsRev rows st cy).tables_placed
          = st.tables_placed + (rows.map List.length).sum ∧
      (placeOrphanRowsRev rows st cy).max_tables = st.max_tables ∧
      (placeOrphanRowsRev rows st cy).flag = st.flag ∧
      (placeOrphanRowsRev rows st cy).gen.canvas_width = st.gen.canvas_width ∧
      (placeOrphanRowsRev rows st cy).gen.canvas_height = st.gen.canvas_height ∧
      (∀ nm, (findTable (placeOrphanRowsRev rows st cy).gen nm).width
              = (findTable st.gen nm).width ∧
             (findTable (placeOrphanRowsRev rows st cy).gen nm).height
              = (findTable st.gen nm).height) ∧
      (∀ nm t, (placeOrphanRowsRev rows st cy).gen.tables.find?
            (fun u => u.name = nm) = some t →
        st.gen.tables.find? (fun u => u.name = nm) = some t ∨ (lbX < t.x ∧ lbY < t.y)) ∧
      (∀ row2 ∈ rows, ∀ e ∈ row2, ∀ t, (placeOrphanRowsRev rows st cy).gen.tables.find?
            (fun u => u.name = e.table_name) = some t → (lbX < t.x ∧ lbY < t.y)) := by
  intro rows
  induction rows with
  | nil =>
    intro st cy lbX lbY maxW maxH hcap hrows hsz hcy hcw hmw hmh
    exact ⟨(flipPlaced_nil st.entries).symm, rfl, rfl, rfl, rfl, rfl,
      fun nm => ⟨rfl, rfl⟩, fun nm t ht => Or.inl ht,
      fun row2 hrow2 => absurd hrow2 (by simp)⟩
  | cons row rest ih =>
    intro st cy lbX lbY maxW maxH hcap hrows hsz hcy hcw hmw hmh
    obtain ⟨hne, hlen4⟩ := hrows row (List.mem_cons_self row rest)
    have hmapne : row.map (fun e => (findTable st.gen e.table_name).height) ≠ [] := by
      intro hc
      exact hne (List.map_eq_nil_iff.mp hc)
    have hrowH_le : listMax (row.map (fun e => (findTable st.gen e.table_name).height))
        ≤ maxH := by
      refine listMax_le _ _ hmapne ?_
      intro x hx
      rw [List.mem_map] at hx
      obtain ⟨e, he, rfl⟩ := hx
      exact (hsz row (List.mem_cons_self row rest) e he).2
    have hfold := orphanRowFold_effect
      (cy - listMax (row.map (fun e => (findTable st.gen e.table_name).height)))
      row.reverse st (st.gen.canvas_width - MARGIN) lbX maxW
      (by
        rw [List.length_reverse]
        simp only [List.map_cons, List.sum_cons] at hcap
        omega)
      (by
        intro e he
        exact (hsz row (List.mem_cons_self row rest) e (List.mem_reverse.mp he)).1)
      (by
        rw [List.length_reverse]
        have h4 : (row.length : Int) ≤ 4 := by exact_mod_cast hlen4
        have hmm : (0 : Int) ≤ maxW + MARGIN := by unfold MARGIN; omega
        nlinarith [hcw])
      hmw
    obtain ⟨hf1, hf2, hf3, hf4, hf5, hf6, hf7, hf8, hf9⟩ := hfold
    show (placeOrphanRowsRev (row :: rest) st cy).entries = _ ∧ _
    have hunfold : placeOrphanRowsRev (row :: rest) st cy =
        placeOrphanRowsRev rest
          (placeOrphanRowTables row
            (cy - listMax (row.map (fun e => (findTable st.gen e.table_name).height)))
            (st, st.gen.canvas_width - MARGIN)).1
          (if rest ≠ [] then
            cy - listMax (row.map (fun e => (findTable st.gen e.table_name).height)) - MARGIN
           else cy - listMax (row.map (fun e => (findTable st.gen e.table_name).height))) := by
      simp only [placeOrphanRowsRev]
    have hcyrow : lbY + (rest.length : Int) * (maxH + MARGIN) + MARGIN
        ≤ cy - listMax (row.map (fun e => (findTable st.gen e.table_name).height)) := by
      simp only [List.length_cons] at hcy
      push_cast at hcy
      have h0 : (0 : Int) ≤ (rest.length : Int) := Int.ofNat_nonneg _
      unfold MARGIN at hcy ⊢
      nlinarith
    set stR := (placeOrphanRowTables row
      (cy - listMax (row.map (fun e => (findTable st.gen e.table_name).height)))
      (st, st.gen.canvas_width - MARGIN)).1 with hstR
    have hRfold : stR = (row.reverse.foldl (orphanRowStep
        (cy - listMax (row.map (fun e => (findTable st.gen e.table_name).height))))
        (st, st.gen.canvas_width - MARGIN)).1 := rfl
    have hih := ih stR
      (if rest ≠ [] then
        cy - listMax (row.map (fun e => (findTable st.gen e.table_name).height)) - MARGIN
       else cy - listMax (row.map (fun e => (findTable st.gen e.table_name).height)))
      lbX lbY maxW maxH
      (by
        rw [hRfold, hf2, hf3, List.length_reverse]
        simp only [List.map_cons, List.sum_cons] at hcap
        omega)
      (fun r hr => hrows r (List.mem_cons_of_mem row hr))
      (by
        intro r hr e he
        rw [hRfold, (hf7 e.table_name).1, (hf7 e.table_name).2]
        exact hsz r (List.mem_cons_of_mem row hr) e he)
      (by
        by_cases hrest : rest = []
        · subst hrest
          rw [if_neg (show ¬ (([] : List (List TEntry)) ≠ []) from fun hc => hc rfl)]
          simp only [List.length_nil, Nat.cast_zero, zero_mul] at hcyrow ⊢
          unfold MARGIN at hcyrow
          omega
        · rw [if_pos hrest]
          unfold MARGIN at hcyrow ⊢
          omega)
      (by rw [hRfold, hf5]; exact hcw)
      hmw hmh
    obtain ⟨hi1, hi2, hi3, hi4, hi5, hi6, hi7, hi8, hi9⟩ := hih
    have hcy2bound : lbY < cy - listMax (List.map
        (fun e => (findTable st.gen e.table_name).height) row) := by
      simp only [List.length_cons] at hcy
      push_cast at hcy
      have h0 : (0 : Int) ≤ (rest.length : Int) := Int.ofNat_nonneg _
      have hmm : (0 : Int) ≤ maxH + MARGIN := by unfold MARGIN; omega
      unfold MARGIN at hcy hmm
      nlinarith [hrowH_le]
    rw [hunfold]
    refine ⟨?_, ?_, ?_, ?_, ?_, ?_, ?_, ?_, ?_⟩
    · rw [hi1, hRfold, hf1, flipPlaced_flipPlaced]
      refine flipPlaced_congr_mem _ _ _ ?_
      intro nm
      simp only [List.mem_append, List.mem_map, List.flatten_cons, List.mem_reverse]
      constructor
      · rintro (⟨e, he, rfl⟩ | ⟨e, he, rfl⟩)
        · exact ⟨e, Or.inr he, rfl⟩
        · exact ⟨e, Or.inl he, rfl⟩
      · rintro ⟨e, he, rfl⟩
        rcases he with h | h
        · exact Or.inr ⟨e, h, rfl⟩
        · exact Or.inl ⟨e, h, rfl⟩
    · rw [hi2, hRfold, hf2, List.length_reverse]
      simp only [List.map_cons, List.sum_cons]
      omega
    · rw [hi3, hRfold, hf3]
    · rw [hi4, hRfold, hf4]
    · rw [hi5, hRfold, hf5]
    · rw [hi6, hRfold, hf6]
    · intro nm
      rw [(hi7 nm).1, (hi7 nm).2, hRfold, (hf7 nm).1, (hf7 nm).2]
      exact ⟨rfl, rfl⟩
    · intro nm t ht
      rcases hi8 nm t ht with h1 | h1
      · rw [hRfold] at h1
        rcases hf8 nm t h1 with h2 | h2
        · exact Or.inl h2
        · refine Or.inr ⟨h2.1, ?_⟩
          rw [h2.2]
          exact hcy2bound
      · exact Or.inr h1
    · intro row2 hrow2 e he t ht
      rcases List.mem_cons.mp hrow2 with rfl | hrow2r
      · rcases hi8 e.table_name t ht with h1 | h1
        · rw [hRfold] at h1
          have h2 := hf9 e (List.mem_reverse.mpr he) t h1
          refine ⟨h2.1, ?_⟩
          rw [h2.2]
          exact hcy2bound
        · exact h1
      · exact hi9 row2 hrow2r e he t ht

theorem calc_dims_bounds (t : TableObj) :
    140 ≤ (calculate_dimensions t).width ∧ 40 ≤ (calculate_dimensions t).height := by
  rw [calculate_dimensions_width, calculate_dimensions_height]
  constructor
  · exact le_max_left _ _
  · have : (0 : ℤ) ≤ (t.columns.length : ℤ) := Int.ofNat_nonneg _
    linarith

theorem calc_dims_name (t : TableObj) : (calculate_dimensions t).name = t.name := rfl

theorem fold_updTable_dims_canvas (l : List TEntry) :
    ∀ g : GenState,
      (l.foldl (fun gg e => updTable e.table_name calculate_dimensions gg) g).canvas_width
        = g.canvas_width ∧
      (l.foldl (fun gg e => updTable e.table_name calculate_dimensions gg) g).canvas_height
        = g.canvas_height := by
  induction l with
  | nil => intro g; exact ⟨rfl, rfl⟩
  | cons e l ih =>
    intro g
    rw [List.foldl_cons]
    exact ih (updTable e.table_name calculate_dimensions g)

theorem fold_updTable_dims_preserves (l : List TEntry) (nm : String) :
    ∀ g : GenState,
      (∀ t ∈ g.tables, t.name = nm → 140 ≤ t.width ∧ 40 ≤ t.height) →
      ∀ t ∈ (l.foldl (fun gg e => updTable e.table_name calculate_dimensions gg) g).tables,
        t.name = nm → 140 ≤ t.width ∧ 40 ≤ t.height := by
  induction l with
  | nil => intro g hg; exact hg
  | cons e l ih =>
    intro g hg
    rw [List.foldl_cons]
    refine ih (updTable e.table_name calculate_dimensions g) ?_
    intro t ht hnm
    rw [updTable_tables, List.mem_map] at ht
    obtain ⟨u, hu, rfl⟩ := ht
    by_cases hun : u.name = e.table_name
    · rw [if_pos hun]
      exact calc_dims_bounds u
    · rw [if_neg hun]
      rw [if_neg hun] at hnm
      exact hg u hu hnm

theorem fold_updTable_dims_named (l : List TEntry) (e : TEntry) (he : e ∈ l) :
    ∀ g : GenState,
      ∀ t ∈ (l.foldl (fun gg e2 => updTable e2.table_name calculate_dimensions gg) g).tables,
        t.name = e.table_name → 140 ≤ t.width ∧ 40 ≤ t.height := by
  induction l with
  | nil => cases he
  | cons e0 l ih =>
    intro g
    rw [List.foldl_cons]
    rcases List.mem_cons.mp he with rfl | her
    · refine fold_updTable_dims_preserves l e.table_name
        (updTable e.table_name calculate_dimensions g) ?_
      intro t ht hnm
      rw [updTable_tables, List.mem_map] at ht
      obtain ⟨u, hu, rfl⟩ := ht
      by_cases hun : u.name = e.table_name
      · rw [if_pos hun]
        exact calc_dims_bounds u
      · rw [if_neg hun]
        rw [if_neg hun] at hnm
        exact absurd hnm hun
    · exact ih her (updTable e0.table_name calculate_dimensions g)

theorem findTable_fold_dims_nonneg (l : List TEntry) (e : TEntry) (he : e ∈ l)
    (g : GenState) :
    0 ≤ (findTable (l.foldl (fun gg e2 => updTable e2.table_name calculate_dimensions gg) g)
          e.table_name).width ∧
    0 ≤ (findTable (l.foldl (fun gg e2 => updTable e2.table_name calculate_dimensions gg) g)
          e.table_name).height := by
  unfold findTable
  cases hfind : (l.foldl (fun gg e2 => updTable e2.table_name calculate_dimensions gg)
      g).tables.find? (fun t => t.name = e.table_name) with
  | none => exact ⟨le_rfl, le_rfl⟩
  | some t =>
    have hmem := List.mem_of_find?_eq_some hfind
    have hname := List.find?_some hfind
    simp only [decide_eq_true_eq] at hname
    have := fold_updTable_dims_named l e he g t hmem hname
    simp only [Option.getD_some]
    omega

/-- C7 amended: whenever any orphan exists the canvas is grown by the
(strictly positive) orphan block estimate *unconditionally* — even when the
block would fit the current canvas — and the orphans (exactly the
`connections = 0` entries) are all placed, each tiled strictly beyond the
pre-growth canvas edges, i.e. in the freshly-grown bottom-right region where
they cannot collide with any table placed later inside the old canvas. -/
theorem claim_C7_orphan_placement (st : PlanState)
    (hor : st.entries.filter (fun e => e.connections_num = 0) ≠ [])
    (hnd : (st.entries.map TEntry.table_name).Nodup)
    (hcap : st.tables_placed + (st.entries.filter (fun e => e.connections_num = 0)).length
        ≤ st.max_tables) :
    (∃ aw ah : Int, 0 < aw ∧ 0 < ah ∧
      (place_orphan_tables st).gen.canvas_width = st.gen.canvas_width + aw ∧
      (place_orphan_tables st).gen.canvas_height = st.gen.canvas_height + ah) ∧
    (place_orphan_tables st).entries = st.entries.map
      (fun e => if e.connections_num = 0 then { e with is_placed := true } else e) ∧
    (place_orphan_tables st).tables_placed = st.tables_placed +
      (st.entries.filter (fun e => e.connections_num = 0)).length ∧
    (∀ e ∈ st.entries, e.connections_num = 0 → ∀ t,
      (place_orphan_tables st).gen.tables.find? (fun u => u.name = e.table_name) = some t →
      st.gen.canvas_width < t.x ∧ st.gen.canvas_height < t.y) := by
  have hperm := sortByLt_perm nameLt (st.entries.filter (fun e => e.connections_num = 0))
  have horphne : sortByLt nameLt (st.entries.filter (fun e => e.connections_num = 0)) ≠ [] := by
    intro hc
    rw [← List.length_eq_zero, hperm.length_eq, List.length_eq_zero] at hc
    exact hor hc
  set orphans := sortByLt nameLt (st.entries.filter (fun e => e.connections_num = 0))
    with horphans
  set g1 := orphans.foldl (fun gg e => updTable e.table_name calculate_dimensions gg) st.gen
    with hg1def
  have hg1canvas := fold_updTable_dims_canvas orphans st.gen
  set maxW := listMax (orphans.map (fun e => (findTable g1 e.table_name).width)) with hmaxW
  set maxH := listMax (orphans.map (fun e => (findTable g1 e.table_name).height)) with hmaxH
  have hmapWne : orphans.map (fun e => (findTable g1 e.table_name).width) ≠ [] := by
    intro hc
    exact horphne (List.map_eq_nil_iff.mp hc)
  have hmapHne : orphans.map (fun e => (findTable g1 e.table_name).height) ≠ [] := by
    intro hc
    exact horphne (List.map_eq_nil_iff.mp hc)
  have hmw0 : 0 ≤ maxW := by
    refine listMax_nonneg _ hmapWne ?_
    intro x hx
    rw [List.mem_map] at hx
    obtain ⟨e, he, rfl⟩ := hx
    exact (findTable_fold_dims_nonneg orphans e he st.gen).1
  have hmh0 : 0 ≤ maxH := by
    refine listMax_nonneg _ hmapHne ?_
    intro x hx
    rw [List.mem_map] at hx
    obtain ⟨e, he, rfl⟩ := hx
    exact (findTable_fold_dims_nonneg orphans e he st.gen).2
  have hR1 : 1 ≤ orphanNumRows orphans.length := by
    have : 1 ≤ orphans.length := by
      rcases Nat.eq_zero_or_pos orphans.length with h | h
      · exact absurd (List.length_eq_zero.mp h) horphne
      · omega
    unfold orphanNumRows
    omega
  have haw : 0 < (maxW + MARGIN) * 4 + MARGIN := by unfold MARGIN; omega
  have hah : 0 < (maxH + MARGIN) * (orphanNumRows orphans.length : Int) + MARGIN := by
    have h1 : (1 : Int) ≤ (orphanNumRows orphans.length : Int) := by exact_mod_cast hR1
    unfold MARGIN
    nlinarith
  have harea : orphanAreaSize g1 orphans
      = ((maxW + MARGIN) * 4 + MARGIN,
         (maxH + MARGIN) * (orphanNumRows orphans.length : Int) + MARGIN) := rfl
  have hmain : place_orphan_tables st = placeOrphanRowsRev (chunksOf 4 orphans).reverse
      { st with gen := { g1 with
          canvas_width := g1.canvas_width + ((maxW + MARGIN) * 4 + MARGIN),
          canvas_height := g1.canvas_height
            + ((maxH + MARGIN) * (orphanNumRows orphans.length : Int) + MARGIN) } }
      (g1.canvas_height
        + ((maxH + MARGIN) * (orphanNumRows orphans.length : Int) + MARGIN) - MARGIN) := by
    unfold place_orphan_tables
    rw [if_neg hor]
    simp only [← horphans, ← hg1def, harea]
    rw [if_pos (by omega : g1.canvas_width < g1.canvas_width + ((maxW + MARGIN) * 4 + MARGIN)),
      if_pos (by omega : g1.canvas_height < g1.canvas_height
        + ((maxH + MARGIN) * (orphanNumRows orphans.length : Int) + MARGIN))]
  set st2 : PlanState := { st with gen := { g1 with
      canvas_width := g1.canvas_width + ((maxW + MARGIN) * 4 + MARGIN),
      canvas_height := g1.canvas_height
        + ((maxH + MARGIN) * (orphanNumRows orphans.length : Int) + MARGIN) } } with hst2
  have hrowslen : ((chunksOf 4 orphans).reverse.length : Int)
      = (orphanNumRows orphans.length : Int) := by
    rw [List.length_reverse, chunksOf_length 4 (by omega)]
    rfl
  have hsum : ((chunksOf 4 orphans).reverse.map List.length).sum = orphans.length := by
    rw [List.map_reverse, List.sum_reverse, ← List.length_flatten,
      chunksOf_flatten 4 (by omega)]
  have heff := placeOrphanRowsRev_effect (chunksOf 4 orphans).reverse st2
    (g1.canvas_height + ((maxH + MARGIN) * (orphanNumRows orphans.length : Int) + MARGIN)
      - MARGIN)
    st.gen.canvas_width st.gen.canvas_height maxW maxH
    (by
      rw [hsum]
      show st.tables_placed + orphans.length ≤ st.max_tables
      rw [hperm.length_eq]
      exact hcap)
    (by
      intro row hrow
      exact ⟨(chunksOf_mem 4 (by omega) orphans row (List.mem_reverse.mp hrow)).2.1,
        (chunksOf_mem 4 (by omega) orphans row (List.mem_reverse.mp hrow)).1⟩)
    (by
      intro row hrow e he
      have hmemo : e ∈ orphans :=
        (chunksOf_mem 4 (by omega) orphans row (List.mem_reverse.mp hrow)).2.2 e he
      constructor
      · exact le_listMax _ _ (List.mem_map.mpr ⟨e, hmemo, rfl⟩)
      · exact le_listMax _ _ (List.mem_map.mpr ⟨e, hmemo, rfl⟩))
    (by
      rw [hrowslen]
      have hch : g1.canvas_height = st.gen.canvas_height := hg1canvas.2
      rw [hch, mul_comm ((orphanNumRows orphans.length : Int)) (maxH + MARGIN)]
      unfold MARGIN
      omega)
    (by
      show st.gen.canvas_width + 4 * (maxW + MARGIN)
        ≤ g1.canvas_width + ((maxW + MARGIN) * 4 + MARGIN) - MARGIN
      have hcw : g1.canvas_width = st.gen.canvas_width := hg1canvas.1
      rw [hcw]
      unfold MARGIN
      omega)
    hmw0 hmh0
  obtain ⟨he1, he2, he3, he4, he5, he6, he7, he8, he9⟩ := heff
  have hnames : ∀ nm : String, nm ∈ (chunksOf 4 orphans).reverse.flatten.map TEntry.table_name
      ↔ nm ∈ (st.entries.filter (fun e => e.connections_num = 0)).map TEntry.table_name := by
    intro nm
    simp only [List.mem_map]
    constructor
    · rintro ⟨e, he, rfl⟩
      rw [List.mem_flatten] at he
      obtain ⟨row, hrow, hrowmem⟩ := he
      have : e ∈ orphans :=
        (chunksOf_mem 4 (by omega) orphans row (List.mem_reverse.mp hrow)).2.2 e hrowmem
      exact ⟨e, hperm.mem_iff.mp this, rfl⟩
    · rintro ⟨e, he, rfl⟩
      have hmemo : e ∈ orphans := hperm.mem_iff.mpr he
      have : e ∈ (chunksOf 4 orphans).flatten := by
        rw [chunksOf_flatten 4 (by omega)]
        exact hmemo
      rw [List.mem_flatten] at this
      obtain ⟨row, hrow, hrowmem⟩ := this
      refine ⟨e, ?_, rfl⟩
      rw [List.mem_flatten]
      exact ⟨row, List.mem_reverse.mpr hrow, hrowmem⟩
  refine ⟨⟨(maxW + MARGIN) * 4 + MARGIN,
      (maxH + MARGIN) * (orphanNumRows orphans.length : Int) + MARGIN, haw, hah, ?_, ?_⟩,
      ?_, ?_, ?_⟩
  · rw [hmain, he5]
    show g1.canvas_width + _ = _
    rw [hg1canvas.1]
  · rw [hmain, he6]
    show g1.canvas_height + _ = _
    rw [hg1canvas.2]
  · rw [hmain, he1]
    show flipPlaced _ st.entries = _
    rw [flipPlaced_congr_mem _ _ _ hnames]
    unfold flipPlaced
    refine List.map_congr_left ?_
    intro e he
    by_cases hc : e.connections_num = 0
    · rw [if_pos hc, if_pos ?_]
      rw [List.mem_map]
      refine ⟨e, ?_, rfl⟩
      rw [List.mem_filter]
      exact ⟨he, by simp [hc]⟩
    · rw [if_neg hc, if_neg ?_]
      intro hmem
      rw [List.mem_map] at hmem
      obtain ⟨e2, he2, hee⟩ := hmem
      rw [List.mem_filter] at he2
      have he2mem := he2.1
      have he2c : e2.connections_num = 0 := by
        have := he2.2
        simp at this
        exact this
      have : e2 = e := List.inj_on_of_nodup_map hnd he2mem he hee
      rw [← this] at hc
      exact hc he2c
  · rw [hmain, he2, hsum]
    show st.tables_placed + orphans.length = _
    rw [hperm.length_eq]
  · intro e he hc t ht
    have hmemf : e ∈ st.entries.filter (fun e => e.connections_num = 0) := by
      rw [List.mem_filter]
      exact ⟨he, by simp [hc]⟩
    have hmemo : e ∈ orphans := hperm.mem_iff.mpr hmemf
    have : e ∈ (chunksOf 4 orphans).flatten := by
      rw [chunksOf_flatten 4 (by omega)]
      exact hmemo
    rw [List.mem_flatten] at this
    obtain ⟨row, hrow, hrowmem⟩ := this
    rw [hmain] at ht
    exact he9 row (List.mem_reverse.mpr hrow) e hrowmem t ht

theorem map_name_updTable (nm : String) (f : TableObj → TableObj) (g : GenState)
    (hf : ∀ t, (f t).name = t.name) :
    (updTable nm f g).tables.map TableObj.name = g.tables.map TableObj.name := by
  rw [updTable_tables, List.map_map]
  refine List.map_congr_left ?_
  intro t ht
  show (if t.name = nm then f t else t).name = t.name
  by_cases h : t.name = nm
  · rw [if_pos h, hf]
  · rw [if_neg h]

theorem findTable_congr_tables (s1 s2 : GenState) (h : s1.tables = s2.tables) (nm : String) :
    findTable s1 nm = findTable s2 nm := by
  unfold findTable
  rw [h]

theorem stack_search_tables (trig : Trig) (s : GenState) (sw sh : Int) :
    (find_free_location_for_stack trig s sw sh).2.tables = s.tables := by
  unfold find_free_location_for_stack
  cases h : List.findSome? (ringProbe s sw sh)
      (ringPoints trig s.center_x s.center_y 0 (max s.canvas_width s.canvas_height) 25 4) with
  | some p => simp only [h]
  | none =>
    simp only [h]
    split <;> rfl

theorem relocateTable_gen_tables (nm : String) (x y : Int) (st : PlanState) :
    (relocateTable nm x y st).gen.tables =
      (updTable nm (fun u => { u with x := x, y := y }) st.gen).tables := rfl

theorem map_name_placeTable (nm : String) (x y : Int) (st : PlanState) :
    (placeTable nm x y st).gen.tables.map TableObj.name
      = st.gen.tables.map TableObj.name := by
  have h := placeTable_gen_tables nm x y st
  rw [h]
  exact map_name_updTable nm (fun u => { u with x := x, y := y, is_positioned := true })
    st.gen (fun t => rfl)

theorem find?_name_isSome (l : List TableObj) (nm : String)
    (hmem : nm ∈ l.map TableObj.name) :
    ∃ t, l.find? (fun u => u.name = nm) = some t := by
  rw [List.mem_map] at hmem
  obtain ⟨u, hu, hun⟩ := hmem
  have hs : (l.find? (fun u => u.name = nm)).isSome := by
    rw [List.find?_isSome]
    exact ⟨u, hu, by simp [hun]⟩
  exact Option.isSome_iff_exists.mp hs

theorem findTable_placeTable_self (nm : String) (x y : Int) (st : PlanState)
    (hmem : nm ∈ st.gen.tables.map TableObj.name) :
    (findTable (placeTable nm x y st).gen nm).x = x ∧
    (findTable (placeTable nm x y st).gen nm).y = y := by
  obtain ⟨t, hfind⟩ := find?_name_isSome st.gen.tables nm hmem
  have hgen := findTable_congr_tables _ _ (placeTable_gen_tables nm x y st) nm
  rw [hgen, findTable_updTable_self nm
    (fun u => { u with x := x, y := y, is_positioned := true }) st.gen (fun t => rfl) t hfind]
  exact ⟨rfl, rfl⟩

theorem findTable_placeTable_ne (nm : String) (x y : Int) (st : PlanState) (nm2 : String)
    (h : nm2 ≠ nm) :
    findTable (placeTable nm x y st).gen nm2 = findTable st.gen nm2 := by
  have hgen := findTable_congr_tables _ _ (placeTable_gen_tables nm x y st) nm2
  rw [hgen, findTable_updTable_ne nm
    (fun u => { u with x := x, y := y, is_positioned := true }) st.gen nm2 (fun t => rfl) h]

theorem findTable_relocateTable_self (nm : String) (x y : Int) (st : PlanState)
    (hmem : nm ∈ st.gen.tables.map TableObj.name) :
    (findTable (relocateTable nm x y st).gen nm).x = x ∧
    (findTable (relocateTable nm x y st).gen nm).y = y := by
  obtain ⟨t, hfind⟩ := find?_name_isSome st.gen.tables nm hmem
  have hgen := findTable_congr_tables _ _ (relocateTable_gen_tables nm x y st) nm
  rw [hgen, findTable_updTable_self nm
    (fun u => { u with x := x, y := y }) st.gen (fun t => rfl) t hfind]
  exact ⟨rfl, rfl⟩

theorem relocateTable_findTable_proj_wh (nm : String) (x y : Int) (st : PlanState)
    (nm2 : String) :
    (findTable (relocateTable nm x y st).gen nm2).width = (findTable st.gen nm2).width ∧
    (findTable (relocateTable nm x y st).gen nm2).height = (findTable st.gen nm2).height := by
  have hgen := findTable_congr_tables _ _ (relocateTable_gen_tables nm x y st) nm2
  rw [hgen]
  exact ⟨findTable_updTable_proj TableObj.width nm (fun u => { u with x := x, y := y })
      st.gen nm2 (fun t => rfl) (fun t => rfl),
    findTable_updTable_proj TableObj.height nm (fun u => { u with x := x, y := y })
      st.gen nm2 (fun t => rfl) (fun t => rfl)⟩

theorem stackChildren_nil (px : Int) (st : PlanState) (cy : Int) :
    stackChildren px [] st cy = (st, cy) := rfl

theorem stackChildren_cons (px : Int) (e : TEntry) (rest : List TEntry) (st : PlanState)
    (cy : Int) :
    stackChildren px (e :: rest) st cy
      = stackChildren px rest (placeTable e.table_name px cy st)
          (cy + (findTable st.gen e.table_name).height) := rfl

theorem stackChildren_effect :
    ∀ (direct : List TEntry) (st : PlanState) (px cy : Int),
      (∀ e ∈ direct, e.table_name ∈ st.gen.tables.map TableObj.name) →
      (direct.map TEntry.table_name).Nodup →
      ((∀ nm, nm ∉ direct.map TEntry.table_name →
          findTable (stackChildren px direct st cy).1.gen nm = findTable st.gen nm) ∧
       (∀ nm, (findTable (stackChildren px direct st cy).1.gen nm).width
                = (findTable st.gen nm).width ∧
              (findTable (stackChildren px direct st cy).1.gen nm).height
                = (findTable st.gen nm).height) ∧
       (∀ e0 rest2, direct = e0 :: rest2 →
          (findTable (stackChildren px direct st cy).1.gen e0.table_name).x = px ∧
          (findTable (stackChildren px direct st cy).1.gen e0.table_name).y = cy) ∧
       List.Chain' (fun a b =>
           (findTable (stackChildren px direct st cy).1.gen b).x = px ∧
           (findTable (stackChildren px direct st cy).1.gen b).y
             = (findTable (stackChildren px direct st cy).1.gen a).y
               + (findTable (stackChildren px direct st cy).1.gen a).height)
         (direct.map TEntry.table_name)) := by
  intro direct
  induction direct with
  | nil =>
    intro st px cy hmem hnd
    exact ⟨fun nm _ => rfl, fun nm => ⟨rfl, rfl⟩,
      fun e0 rest2 h => absurd h (by simp), by simp⟩
  | cons e rest ih =>
    intro st px cy hmem hnd
    have hememst : e.table_name ∈ st.gen.tables.map TableObj.name :=
      hmem e (List.mem_cons_self e rest)
    have hnames1 : (placeTable e.table_name px cy st).gen.tables.map TableObj.name
        = st.gen.tables.map TableObj.name := map_name_placeTable _ _ _ _
    have hmem1 : ∀ e2 ∈ rest,
        e2.table_name ∈ (placeTable e.table_name px cy st).gen.tables.map TableObj.name := by
      intro e2 he2
      rw [hnames1]
      exact hmem e2 (List.mem_cons_of_mem e he2)
    rw [List.map_cons] at hnd
    obtain ⟨henotin, hnd1⟩ := List.nodup_cons.mp hnd
    obtain ⟨ih1, ih2, ih3, ih4⟩ := ih (placeTable e.table_name px cy st) px
      (cy + (findTable st.gen e.table_name).height) hmem1 hnd1
    simp only [stackChildren_cons]
    refine ⟨?_, ?_, ?_, ?_⟩
    · intro nm hnm
      rw [List.map_cons, List.mem_cons] at hnm
      push_neg at hnm
      rw [ih1 nm hnm.2]
      exact findTable_placeTable_ne _ _ _ _ _ hnm.1
    · intro nm
      refine ⟨?_, ?_⟩
      · rw [(ih2 nm).1]
        exact (placeTable_findTable_proj_wh _ _ _ _ _).1
      · rw [(ih2 nm).2]
        exact (placeTable_findTable_proj_wh _ _ _ _ _).2
    · intro e0 rest2 h
      obtain ⟨rfl, rfl⟩ : e = e0 ∧ rest = rest2 := by
        injection h with h1 h2
        exact ⟨h1, h2⟩
      rw [ih1 e.table_name henotin]
      exact findTable_placeTable_self e.table_name px cy st hememst
    · rw [List.map_cons]
      cases rest with
      | nil => simp
      | cons e2 rest2 =>
        rw [List.map_cons]
        refine List.chain'_cons.mpr ⟨?_, ?_⟩
        · have h2 := ih3 e2 rest2 rfl
          have he1 : findTable (stackChildren px (e2 :: rest2)
              (placeTable e.table_name px cy st)
              (cy + (findTable st.gen e.table_name).height)).1.gen e.table_name
              = findTable (placeTable e.table_name px cy st).gen e.table_name :=
            ih1 e.table_name henotin
          have hself := findTable_placeTable_self e.table_name px cy st hememst
          have hwh := ih2 e.table_name
          have hwh2 := placeTable_findTable_proj_wh e.table_name px cy st e.table_name
          refine ⟨h2.1, ?_⟩
          rw [h2.2, he1, hself.2, hwh2.2]
        · rw [List.map_cons] at ih4
          exact ih4

theorem stackSearchOf_tables (trig : Trig) (st : PlanState) (parentName : String)
    (pe : TEntry) :
    (stackSearchOf trig st parentName pe).2.tables = st.gen.tables := by
  unfold stackSearchOf
  exact stack_search_tables _ _ _ _

theorem place_direct_children_eq (trig : Trig) (parentName : String) (st : PlanState)
    (pe : TEntry)
    (hfe : findEntry st.entries parentName = some pe)
    (hsc : ¬ pe.single_children = [])
    (hd0 : ¬ pe.single_children.filterMap (fun nm =>
        match findEntry st.entries nm with
        | some e => if e.is_placed then none else some e
        | none => none) = []) :
    place_direct_children trig parentName st =
      (stackChildren (stackSearchOf trig st parentName pe).1.1 (directChildrenOf st pe)
        (relocateTable parentName (stackSearchOf trig st parentName pe).1.1
          (stackSearchOf trig st parentName pe).1.2
          { st with gen := (stackSearchOf trig st parentName pe).2 })
        ((stackSearchOf trig st parentName pe).1.2
          + (findTable st.gen parentName).height)).1 := by
  unfold place_direct_children stackSearchOf directChildrenOf stackChildren
  simp only [hfe]
  rw [if_neg hsc, if_neg hd0]

/-- C2 amended: `place_direct_children` stacks the parent's (unplaced, capped,
name-sorted) single children in a single touching column: the parent sits at
the top of the stack (it is relocated to the stack location), only the FIRST
child touches the parent's bottom edge, every later child touches the bottom
edge of the PREVIOUS child, and all children are left-aligned with the
parent.  The claimed `child.y = parent.y + parent.height` holds for the first
child only. -/
theorem claim_C2_child_adjacency (trig : Trig) (st : PlanState) (parentName : String)
    (pe : TEntry) (direct : List TEntry)
    (hfe : findEntry st.entries parentName = some pe)
    (hsc : ¬ pe.single_children = [])
    (hdirect : direct = directChildrenOf st pe)
    (hdne : direct ≠ [])
    (hmem : ∀ e ∈ direct, e.table_name ∈ st.gen.tables.map TableObj.name)
    (hpmem : parentName ∈ st.gen.tables.map TableObj.name)
    (hnd : (parentName :: direct.map TEntry.table_name).Nodup) :
    List.Chain' (fun a b =>
        (findTable (place_direct_children trig parentName st).gen b).x
          = (findTable (place_direct_children trig parentName st).gen parentName).x ∧
        (findTable (place_direct_children trig parentName st).gen b).y
          = (findTable (place_direct_children trig parentName st).gen a).y
            + (findTable (place_direct_children trig parentName st).gen a).height)
      (parentName :: direct.map TEntry.table_name) := by
  have hd0 : ¬ pe.single_children.filterMap (fun nm =>
      match findEntry st.entries nm with
      | some e => if e.is_placed then none else some e
      | none => none) = [] := by
    intro hc
    apply hdne
    rw [hdirect]
    unfold directChildrenOf
    rw [hc]
    simp [sortByLt]
  have heq := place_direct_children_eq trig parentName st pe hfe hsc hd0
  rw [heq, ← hdirect]
  obtain ⟨hnpd, hndD⟩ := List.nodup_cons.mp hnd
  have hg2tab : (stackSearchOf trig st parentName pe).2.tables = st.gen.tables :=
    stackSearchOf_tables trig st parentName pe
  have hnames3 : (relocateTable parentName (stackSearchOf trig st parentName pe).1.1
        (stackSearchOf trig st parentName pe).1.2
        { st with gen := (stackSearchOf trig st parentName pe).2 }).gen.tables.map
          TableObj.name
      = st.gen.tables.map TableObj.name := by
    rw [relocateTable_gen_tables]
    rw [map_name_updTable parentName
      (fun u => { u with x := (stackSearchOf trig st parentName pe).1.1,
                         y := (stackSearchOf trig st parentName pe).1.2 })
      ({ st with gen := (stackSearchOf trig st parentName pe).2 } : PlanState).gen
      (fun t => rfl)]
    show (stackSearchOf trig st parentName pe).2.tables.map TableObj.name = _
    rw [hg2tab]
  have hmem3 : ∀ e ∈ direct, e.table_name ∈
      (relocateTable parentName (stackSearchOf trig st parentName pe).1.1
        (stackSearchOf trig st parentName pe).1.2
        { st with gen := (stackSearchOf trig st parentName pe).2 }).gen.tables.map
          TableObj.name := by
    intro e he
    rw [hnames3]
    exact hmem e he
  obtain ⟨f1, f2, f3, f4⟩ := stackChildren_effect direct
    (relocateTable parentName (stackSearchOf trig st parentName pe).1.1
      (stackSearchOf trig st parentName pe).1.2
      { st with gen := (stackSearchOf trig st parentName pe).2 })
    (stackSearchOf trig st parentName pe).1.1
    ((stackSearchOf trig st parentName pe).1.2 + (findTable st.gen parentName).height)
    hmem3 hndD
  have hpmem2 : parentName ∈
      ({ st with gen := (stackSearchOf trig st parentName pe).2 } :
        PlanState).gen.tables.map TableObj.name := by
    show parentName ∈ (stackSearchOf trig st parentName pe).2.tables.map TableObj.name
    rw [hg2tab]
    exact hpmem
  have hpself := findTable_relocateTable_self parentName
    (stackSearchOf trig st parentName pe).1.1 (stackSearchOf trig st parentName pe).1.2
    { st with gen := (stackSearchOf trig st parentName pe).2 } hpmem2
  have hpres := f1 parentName hnpd
  have hpwh := relocateTable_findTable_proj_wh parentName
    (stackSearchOf trig st parentName pe).1.1 (stackSearchOf trig st parentName pe).1.2
    { st with gen := (stackSearchOf trig st parentName pe).2 } parentName
  have hph : (findTable ({ st with gen := (stackSearchOf trig st parentName pe).2 } :
      PlanState).gen parentName).height = (findTable st.gen parentName).height := by
    show (findTable (stackSearchOf trig st parentName pe).2 parentName).height = _
    rw [findTable_congr_tables _ st.gen hg2tab]
  cases direct with
  | nil => exact absurd rfl hdne
  | cons e0 rest =>
    rw [List.map_cons]
    refine List.chain'_cons.mpr ⟨?_, ?_⟩
    · have h0 := f3 e0 rest rfl
      refine ⟨?_, ?_⟩
      · rw [h0.1, hpres, hpself.1]
      · rw [h0.2, hpres, hpself.2, hpwh.2, hph]
    · rw [List.map_cons] at f4
      refine List.Chain'.imp ?_ f4
      intro a b hab
      refine ⟨?_, hab.2⟩
      rw [hab.1, hpres, hpself.1]

theorem claim_C7_orphan_placement_witness :
    (c7State.entries.filter (fun e => e.connections_num = 0) ≠ [] ∧
     (c7State.entries.map TEntry.table_name).Nodup ∧
     c7State.tables_placed + (c7State.entries.filter (fun e => e.connections_num = 0)).length
        ≤ c7State.max_tables) ∧
    ((∃ aw ah : Int, 0 < aw ∧ 0 < ah ∧
      (place_orphan_tables c7State).gen.canvas_width = c7State.gen.canvas_width + aw ∧
      (place_orphan_tables c7State).gen.canvas_height = c7State.gen.canvas_height + ah) ∧
     (place_orphan_tables c7State).entries = c7State.entries.map
        (fun e => if e.connections_num = 0 then { e with is_placed := true } else e) ∧
     (place_orphan_tables c7State).tables_placed = c7State.tables_placed +
        (c7State.entries.filter (fun e => e.connections_num = 0)).length ∧
     (∀ e ∈ c7State.entries, e.connections_num = 0 → ∀ t,
        (place_orphan_tables c7State).gen.tables.find?
          (fun u => u.name = e.table_name) = some t →
        c7State.gen.canvas_width < t.x ∧ c7State.gen.canvas_height < t.y)) :=
  ⟨⟨by decide, by decide, by decide⟩,
    claim_C7_orphan_placement c7State (by decide) (by decide) (by decide)⟩

theorem ringProbe_none_of_narrow (s : GenState) (w h : Int)
    (hw : s.canvas_width - w - 10 < 10) (p : Int × Int) : ringProbe s w h p = none := by
  unfold ringProbe
  rw [if_neg]
  rintro ⟨h1, h2, -⟩
  omega

theorem center_search_fallback (trig : Trig) (s : GenState) (w h : Int)
    (hw : s.canvas_width - w - 10 < 10) :
    get_next_free_position_near_center trig s w h
      = ((s.canvas_width + 400 - w - 20, s.center_y),
         { s with canvas_width := s.canvas_width + 400 }) := by
  unfold get_next_free_position_near_center
  have hnone : List.findSome? (ringProbe s w h)
      (ringPoints trig s.center_x s.center_y 0 (max s.canvas_width s.canvas_height) 20 3)
      = none := by
    rw [List.findSome?_eq_none_iff]
    intro p hp
    exact ringProbe_none_of_narrow s w h hw p
  simp only [hnone]

theorem table_search_fallback_down (trig : Trig) (s : GenState) (anchor : TableObj)
    (w h : Int) (hw : s.canvas_width - w - 10 < 10)
    (hax : ¬ anchor.x + anchor.width.fdiv 2 > s.canvas_width.fdiv 2) :
    get_next_free_position_near_table trig s anchor w h
      = ((anchor.x + anchor.width.fdiv 2, s.canvas_height + 300 - h - 20),
         { s with canvas_height := s.canvas_height + 300 }) := by
  unfold get_next_free_position_near_table
  have hnone : List.findSome? (ringProbe s w h)
      (ringPoints trig (anchor.x + anchor.width.fdiv 2) (anchor.y + anchor.height.fdiv 2)
        60 (max s.canvas_width s.canvas_height) 15 2) = none := by
    rw [List.findSome?_eq_none_iff]
    intro p hp
    exact ringProbe_none_of_narrow s w h hw p
  simp only [hnone]
  rw [if_neg hax]

theorem place_direct_children_skip (trig : Trig) (parentName : String) (st : PlanState)
    (pe : TEntry) (hfe : findEntry st.entries parentName = some pe)
    (hsc : pe.single_children = []) :
    place_direct_children trig parentName st = st := by
  unfold place_direct_children
  simp only [hfe]
  rw [if_pos hsc]

theorem placeFlagStep_eq (trig : Trig) (st : PlanState) (first : TEntry)
    (rest : List TEntry) (pos : Int × Int) (g2 : GenState)
    (hE : st.entries = first :: rest)
    (hcap : st.tables_placed < st.max_tables)
    (hsearch : get_next_free_position_near_center trig st.gen
        first.combined_block_width first.combined_block_height = (pos, g2)) :
    placeFlagStep trig st = place_direct_children trig first.table_name
      { (placeTable first.table_name pos.1 pos.2 { st with gen := g2 }) with
        flag := some first.table_name } := by
  unfold placeFlagStep
  simp only [hE]
  rw [if_pos hcap, hsearch]

theorem phaseAStep_eq (trig : Trig) (st : PlanState) (flagName : String)
    (flagE cand : TEntry) (cnt : Nat) (pos : Int × Int) (g2 : GenState)
    (hflag : st.flag = some flagName)
    (hfe : findEntry st.entries flagName = some flagE)
    (hbest : bestFlagCandidate st.entries flagE = (some cand, cnt))
    (hcnt : cnt > 0)
    (hsearch : get_next_free_position_near_table trig st.gen (findTable st.gen flagName)
        cand.combined_block_width cand.combined_block_height = (pos, g2)) :
    phaseAStep trig st = some (place_direct_children trig cand.table_name
      (placeTable cand.table_name pos.1 pos.2 { st with gen := g2 })) := by
  unfold phaseAStep
  simp only [hflag, hfe, hbest]
  rw [if_pos hcnt, hsearch]

theorem phaseALoopStep_run (trig : Trig) (st : PlanState)
    (hcap : st.tables_placed < st.max_tables) :
    phaseALoopStep trig st = phaseAStep trig st := by
  unfold phaseALoopStep
  rw [if_pos hcap]

theorem phaseALoopStep_stop (trig : Trig) (st : PlanState)
    (hcap : ¬ st.tables_placed < st.max_tables) :
    phaseALoopStep trig st = none := by
  unfold phaseALoopStep
  rw [if_neg hcap]

theorem phaseARun_some (trig : Trig) (st st1 : PlanState)
    (hstep : phaseALoopStep trig st = some st1) :
    phaseARun trig st
      = (fuelLoop (phaseALoopStep trig) (unplacedCount st1 + 1) st1, true) := by
  unfold phaseARun
  simp only [hstep]

theorem mainLoopStep_stop (trig : Trig) (st : PlanState)
    (hcap : ¬ st.tables_placed < st.max_tables) :
    mainLoopStep trig st = none := by
  unfold mainLoopStep
  rw [if_neg hcap]

theorem fuelLoop_succ_none (step : σ → Option σ) (n : Nat) (s : σ) (h : step s = none) :
    fuelLoop step (n + 1) s = s := by
  unfold fuelLoop
  simp only [h]

theorem fuelLoop_succ_some (step : σ → Option σ) (n : Nat) (s s2 : σ)
    (h : step s = some s2) :
    fuelLoop step (n + 1) s = fuelLoop step n s2 := by
  have hstep : fuelLoop step (n + 1) s
      = match step s with | none => s | some s3 => fuelLoop step n s3 := rfl
  rw [hstep, h]

set_option maxRecDepth 100000 in
/-- C1 fails: on `c1Input` (two mutually referencing 2904px-wide tables on
the standard 2400x1800 canvas) the complete layout run — for EVERY probe
function, i.e. whatever values the IEEE-754 ring probes take, since both ring
searches reject every probe by their canvas-bound checks — places `B` at
`(-124, 900)` through the center-search fallback and then `A` at
`(1328, 1482)` through the near-table downward fallback, which performs no
freeness check; `B` reaches down to `y = 1498 > 1482`, so the two rectangles
overlap and the source's final verifier reports 1 overlapping pair, not 0. -/
theorem claim_C1_no_overlap_fails : ∀ trig : Trig, layoutOverlapCount trig c1Input = 1 := by
  intro trig
  have hsearch1 : get_next_free_position_near_center trig c1St0.gen
      c1EB.combined_block_width c1EB.combined_block_height
      = ((-124, 900), { c1St0.gen with canvas_width := 2800 }) := by
    rw [center_search_fallback trig c1St0.gen c1EB.combined_block_width
        c1EB.combined_block_height (by decide)]
    decide
  have h3 : placeFlagStep trig c1St0 = c1St2 := by
    rw [placeFlagStep_eq trig c1St0 c1EB [c1EA] (-124, 900)
        { c1St0.gen with canvas_width := 2800 } (by decide) (by decide) hsearch1]
    exact (place_direct_children_skip trig c1EB.table_name _
      { c1EB with is_placed := true } (by decide) rfl).trans (by decide)
  have hsearch2 : get_next_free_position_near_table trig c1St2.gen
      (findTable c1St2.gen c1NameB) c1EA.combined_block_width c1EA.combined_block_height
      = ((1328, 1482), { c1St2.gen with canvas_height := 2100 }) := by
    rw [table_search_fallback_down trig c1St2.gen (findTable c1St2.gen c1NameB)
        c1EA.combined_block_width c1EA.combined_block_height (by decide) (by decide)]
    decide
  have hA1 : phaseAStep trig c1St2 = some c1St3 := by
    rw [phaseAStep_eq trig c1St2 c1NameB { c1EB with is_placed := true } c1EA 2
        (1328, 1482) { c1St2.gen with canvas_height := 2100 }
        (by decide) (by decide) (by decide) (by decide) hsearch2]
    exact congrArg some ((place_direct_children_skip trig c1EA.table_name _
      { c1EA with is_placed := true } (by decide) rfl).trans (by decide))
  have hA2 : phaseALoopStep trig c1St2 = some c1St3 :=
    (phaseALoopStep_run trig c1St2 (by decide)).trans hA1
  have hA4 : phaseALoopStep trig c1St3 = none := phaseALoopStep_stop trig c1St3 (by decide)
  have hA5 : fuelLoop (phaseALoopStep trig) (unplacedCount c1St3 + 1) c1St3 = c1St3 := by
    rw [show unplacedCount c1St3 = 0 from by decide]
    exact fuelLoop_succ_none _ 0 _ hA4
  have hA3 : phaseARun trig c1St2 = (c1St3, true) := by
    rw [phaseARun_some trig c1St2 c1St3 hA2, hA5]
  have h4 : mainLoopStep trig c1St2 = some c1St3 := by
    unfold mainLoopStep
    rw [if_pos (show c1St2.tables_placed < c1St2.max_tables from by decide)]
    rw [if_pos (show (c1St2.entries.any
      (fun e => e.is_placed = false ∧ e.connections_num > 1)) = true from by decide)]
    simp only [show c1St2.flag = some c1NameB from by decide]
    rw [hA3]
    rfl
  have h2 : place_orphan_tables c1St0 = c1St0 := by decide
  have h7 : fuelLoop (mainLoopStep trig) (unplacedCount c1St2 + 1) c1St2 = c1St3 := by
    rw [show unplacedCount c1St2 = 1 from by decide,
      fuelLoop_succ_some _ _ _ _ h4,
      fuelLoop_succ_none _ _ _ (mainLoopStep_stop trig c1St3 (by decide))]
  have h0 : position_tables_intelligently trig c1Input
      = remainingPhase (phaseC trig (fuelLoop (mainLoopStep trig)
          (unplacedCount (placeFlagStep trig (place_orphan_tables c1St0)) + 1)
          (placeFlagStep trig (place_orphan_tables c1St0)))) := rfl
  have h8 : phaseC trig c1St3 = c1St3 := by
    unfold phaseC
    rw [if_neg (by decide)]
  have h9 : remainingPhase c1St3 = c1St3 := by
    unfold remainingPhase
    rw [if_pos (by decide)]
  unfold layoutOverlapCount
  rw [h0, h2, h3, h7, h8, h9]
  decide

theorem find?_eq_of_mem_nodup (l : List TableObj) (u : TableObj) (nm : String)
    (hnd : (l.map TableObj.name).Nodup) (hu : u ∈ l) (hn : u.name = nm) :
    l.find? (fun t => t.name = nm) = some u := by
  induction l with
  | nil => cases hu
  | cons t ts ih =>
    rw [List.map_cons] at hnd
    obtain ⟨hhead, htail⟩ := List.nodup_cons.mp hnd
    by_cases ht : t.name = nm
    · rw [List.find?_cons_of_pos _ (by simp [ht])]
      rcases List.mem_cons.mp hu with rfl | hmem
      · rfl
      · exfalso
        apply hhead
        rw [ht, ← hn]
        exact List.mem_map.mpr ⟨u, hmem, rfl⟩
    · rw [List.find?_cons_of_neg _ (by simp [ht])]
      rcases List.mem_cons.mp hu with rfl | hmem
      · exact absurd hn ht
      · exact ih htail hmem

/-- C9: every placement/relocation appends the margin-inflated rectangle at
the table's new geometry to the (append-only) tracker — the stale rectangle
of a relocated table remains — and both operations preserve the invariant
that every positioned table's current inflated rectangle is tracked, so the
tracker over-approximates actual occupancy throughout a run. -/
theorem claim_C9_occupied_invariant (st : PlanState) (nm : String) (x y : Int)
    (hnd : (st.gen.tables.map TableObj.name).Nodup) :
    ((placeTable nm x y st).gen.occupied_areas
        = st.gen.occupied_areas
          ++ [inflate x y (findTable st.gen nm).width (findTable st.gen nm).height]) ∧
    ((relocateTable nm x y st).gen.occupied_areas
        = st.gen.occupied_areas
          ++ [inflate x y (findTable st.gen nm).width (findTable st.gen nm).height]) ∧
    (InvOcc st.gen → InvOcc (placeTable nm x y st).gen) ∧
    (InvOcc st.gen → InvOcc (relocateTable nm x y st).gen) := by
  refine ⟨rfl, rfl, ?_, ?_⟩
  · intro hinv t ht hpos
    have htab : (placeTable nm x y st).gen.tables
        = st.gen.tables.map (fun u =>
            if u.name = nm then { u with x := x, y := y, is_positioned := true } else u) := rfl
    rw [htab, List.mem_map] at ht
    obtain ⟨u, hu, rfl⟩ := ht
    have hocc : (placeTable nm x y st).gen.occupied_areas
        = st.gen.occupied_areas
          ++ [inflate x y (findTable st.gen nm).width (findTable st.gen nm).height] := rfl
    rw [hocc]
    by_cases hun : u.name = nm
    · rw [if_pos hun]
      have hfind : findTable st.gen nm = u := by
        unfold findTable
        rw [find?_eq_of_mem_nodup st.gen.tables u nm hnd hu hun]
        rfl
      rw [hfind]
      exact List.mem_append_right _ (List.mem_singleton.mpr rfl)
    · rw [if_neg hun]
      rw [if_neg hun] at hpos
      exact List.mem_append_left _ (hinv u hu hpos)
  · intro hinv t ht hpos
    have htab : (relocateTable nm x y st).gen.tables
        = st.gen.tables.map (fun u =>
            if u.name = nm then { u with x := x, y := y } else u) := rfl
    rw [htab, List.mem_map] at ht
    obtain ⟨u, hu, rfl⟩ := ht
    have hocc : (relocateTable nm x y st).gen.occupied_areas
        = st.gen.occupied_areas
          ++ [inflate x y (findTable st.gen nm).width (findTable st.gen nm).height] := rfl
    rw [hocc]
    by_cases hun : u.name = nm
    · rw [if_pos hun]
      have hfind : findTable st.gen nm = u := by
        unfold findTable
        rw [find?_eq_of_mem_nodup st.gen.tables u nm hnd hu hun]
        rfl
      rw [hfind]
      exact List.mem_append_right _ (List.mem_singleton.mpr rfl)
    · rw [if_neg hun]
      rw [if_neg hun] at hpos
      exact List.mem_append_left _ (hinv u hu hpos)

theorem claim_C9_occupied_invariant_witness :
    ((c7State.gen.tables.map TableObj.name).Nodup) ∧
    (((placeTable "Orphan" 5 7 c7State).gen.occupied_areas
        = c7State.gen.occupied_areas
          ++ [inflate 5 7 (findTable c7State.gen "Orphan").width
                (findTable c7State.gen "Orphan").height]) ∧
     ((relocateTable "Orphan" 5 7 c7State).gen.occupied_areas
        = c7State.gen.occupied_areas
          ++ [inflate 5 7 (findTable c7State.gen "Orphan").width
                (findTable c7State.gen "Orphan").height]) ∧
     (InvOcc c7State.gen → InvOcc (placeTable "Orphan" 5 7 c7State).gen) ∧
     (InvOcc c7State.gen → InvOcc (relocateTable "Orphan" 5 7 c7State).gen)) :=
  ⟨by decide, claim_C9_occupied_invariant c7State "Orphan" 5 7 (by decide)⟩

/-! ### Termination of the fuel-bounded loops (claim C8) -/

theorem length_filter_map_le (f : TEntry → TEntry) (p : TEntry → Bool)
    (hf : ∀ e, p (f e) = true → p e = true) :
    ∀ es : List TEntry, ((es.map f).filter p).length ≤ (es.filter p).length := by
  intro es
  induction es with
  | nil => exact le_rfl
  | cons e es ih =>
    rw [List.map_cons, List.filter_cons, List.filter_cons]
    by_cases hpf : p (f e) = true
    · rw [if_pos hpf, if_pos (hf e hpf)]
      simpa using ih
    · rw [if_neg hpf]
      by_cases hp : p e = true
      · rw [if_pos hp]
        simp only [List.length_cons]
        omega
      · rw [if_neg hp]
        exact ih

theorem length_filter_map_lt (f : TEntry → TEntry) (p : TEntry → Bool)
    (hf : ∀ e, p (f e) = true → p e = true)
    (e0 : TEntry) (hp0 : p e0 = true) (hpf0 : p (f e0) = false) :
    ∀ es : List TEntry, e0 ∈ es →
      ((es.map f).filter p).length < (es.filter p).length := by
  intro es
  induction es with
  | nil => intro h; cases h
  | cons e es ih =>
    intro hmem
    rw [List.map_cons, List.filter_cons, List.filter_cons]
    rcases List.mem_cons.mp hmem with rfl | hmem2
    · rw [if_neg (by rw [hpf0]; exact Bool.false_ne_true), if_pos hp0]
      simp only [List.length_cons]
      exact Nat.lt_succ_of_le (length_filter_map_le f p hf es)
    · have hlt := ih hmem2
      by_cases hpf : p (f e) = true
      · rw [if_pos hpf, if_pos (hf e hpf)]
        simpa using hlt
      · rw [if_neg hpf]
        by_cases hp : p e = true
        · rw [if_pos hp]
          simp only [List.length_cons]
          omega
        · rw [if_neg hp]
          exact hlt

theorem markEntryPlaced_keeps_placed (nm : String) (e : TEntry) :
    (decide ((if e.table_name = nm then { e with is_placed := true } else e).is_placed
        = false)) = true →
    decide (e.is_placed = false) = true := by
  by_cases hn : e.table_name = nm
  · rw [if_pos hn]
    intro h
    simp at h
  · rw [if_neg hn]
    exact id

theorem unplacedCount_placeTable_le (nm : String) (x y : Int) (st : PlanState) :
    unplacedCount (placeTable nm x y st) ≤ unplacedCount st := by
  show (((st.entries.map (fun e =>
      if e.table_name = nm then { e with is_placed := true } else e)).filter
        (fun e => e.is_placed = false)).length) ≤ _
  exact length_filter_map_le _ _ (markEntryPlaced_keeps_placed nm) st.entries

theorem unplacedCount_placeTable_lt (nm : String) (x y : Int) (st : PlanState)
    (cand : TEntry) (hmem : cand ∈ st.entries) (hname : cand.table_name = nm)
    (hunp : cand.is_placed = false) :
    unplacedCount (placeTable nm x y st) < unplacedCount st := by
  show (((st.entries.map (fun e =>
      if e.table_name = nm then { e with is_placed := true } else e)).filter
        (fun e => e.is_placed = false)).length) < _
  refine length_filter_map_lt _ _ (markEntryPlaced_keeps_placed nm) cand ?_ ?_
    st.entries hmem
  · simp [hunp]
  · rw [if_pos hname]
    simp

theorem unplacedCount_stackChildren_le :
    ∀ (direct : List TEntry) (st : PlanState) (px cy : Int),
      unplacedCount (stackChildren px direct st cy).1 ≤ unplacedCount st := by
  intro direct
  induction direct with
  | nil => intro st px cy; exact le_rfl
  | cons e rest ih =>
    intro st px cy
    rw [stackChildren_cons]
    exact le_trans (ih _ _ _) (unplacedCount_placeTable_le _ _ _ _)

theorem place_direct_children_skip2 (trig : Trig) (parentName : String) (st : PlanState)
    (pe : TEntry) (hfe : findEntry st.entries parentName = some pe)
    (hsc : ¬ pe.single_children = [])
    (hd0 : pe.single_children.filterMap (fun nm =>
        match findEntry st.entries nm with
        | some e => if e.is_placed then none else some e
        | none => none) = []) :
    place_direct_children trig parentName st = st := by
  unfold place_direct_children
  simp only [hfe]
  rw [if_neg hsc, if_pos hd0]

theorem unplacedCount_pdc_le (trig : Trig) (parentName : String) (st : PlanState) :
    unplacedCount (place_direct_children trig parentName st) ≤ unplacedCount st := by
  cases hfe : findEntry st.entries parentName with
  | none =>
    have hskip : place_direct_children trig parentName st = st := by
      unfold place_direct_children
      simp only [hfe]
    rw [hskip]
  | some pe =>
    by_cases h1 : pe.single_children = []
    · rw [place_direct_children_skip trig parentName st pe hfe h1]
    · by_cases h2 : pe.single_children.filterMap (fun nm =>
          match findEntry st.entries nm with
          | some e => if e.is_placed then none else some e
          | none => none) = []
      · rw [place_direct_children_skip2 trig parentName st pe hfe h1 h2]
      · rw [place_direct_children_eq trig parentName st pe hfe h1 h2]
        exact unplacedCount_stackChildren_le _ _ _ _

theorem bestFold_inv (flagE : TEntry) (P : TEntry → Prop) :
    ∀ (l : List TEntry) (acc : Option TEntry × Nat),
      (∀ b, acc.1 = some b → P b) →
      (∀ e ∈ l, e.is_placed = false → e.connections_num > 1 → P e) →
      ∀ b, (l.foldl (fun best e =>
          if e.is_placed = false ∧ e.connections_num > 1 then
            let c1 := if flagE.table_name ∈ e.connected_names
                      then e.connected_names.count flagE.table_name else 0
            let c2 := if e.table_name ∈ flagE.connected_names
                      then flagE.connected_names.count e.table_name else 0
            let cf := c1 + c2
            match best with
            | (none, bc) => if cf > bc ∨ cf = bc then (some e, cf) else best
            | (some b, bc) =>
              if cf > bc ∨ (cf = bc ∧ e.connections_num > b.connections_num) then (some e, cf)
              else best
          else best) acc).1 = some b → P b := by
  have hcases : ∀ (acc : Option TEntry × Nat) (e : TEntry),
      ((fun best e =>
          if e.is_placed = false ∧ e.connections_num > 1 then
            let c1 := if flagE.table_name ∈ e.connected_names
                      then e.connected_names.count flagE.table_name else 0
            let c2 := if e.table_name ∈ flagE.connected_names
                      then flagE.connected_names.count e.table_name else 0
            let cf := c1 + c2
            match best with
            | (none, bc) => if cf > bc ∨ cf = bc then (some e, cf) else best
            | (some b, bc) =>
              if cf > bc ∨ (cf = bc ∧ e.connections_num > b.connections_num) then (some e, cf)
              else best
          else best) acc e = acc) ∨
      (∃ cf, (fun best e =>
          if e.is_placed = false ∧ e.connections_num > 1 then
            let c1 := if flagE.table_name ∈ e.connected_names
                      then e.connected_names.count flagE.table_name else 0
            let c2 := if e.table_name ∈ flagE.connected_names
                      then flagE.connected_names.count e.table_name else 0
            let cf := c1 + c2
            match best with
            | (none, bc) => if cf > bc ∨ cf = bc then (some e, cf) else best
            | (some b, bc) =>
              if cf > bc ∨ (cf = bc ∧ e.connections_num > b.connections_num) then (some e, cf)
              else best
          else best) acc e = (some e, cf) ∧ e.is_placed = false ∧ e.connections_num > 1) := by
    intro acc e
    by_cases hg : e.is_placed = false ∧ e.connections_num > 1
    · dsimp only
      rw [if_pos hg]
      generalize (if flagE.table_name ∈ e.connected_names
          then e.connected_names.count flagE.table_name else 0) = c1v
      generalize (if e.table_name ∈ flagE.connected_names
          then flagE.connected_names.count e.table_name else 0) = c2v
      rcases acc with ⟨o, bc⟩
      cases o with
      | none =>
        dsimp only
        split
        · exact Or.inr ⟨c1v + c2v, rfl, hg.1, hg.2⟩
        · exact Or.inl rfl
      | some b0 =>
        dsimp only
        split
        · exact Or.inr ⟨c1v + c2v, rfl, hg.1, hg.2⟩
        · exact Or.inl rfl
    · dsimp only
      rw [if_neg hg]
      exact Or.inl rfl
  intro l
  induction l with
  | nil => intro acc hacc hl b hb; exact hacc b hb
  | cons e l ih =>
    intro acc hacc hl b hb
    rw [List.foldl_cons] at hb
    refine ih _ ?_ (fun e2 he2 => hl e2 (List.mem_cons_of_mem e he2)) b hb
    intro b2 hb2
    rcases hcases acc e with heq | ⟨cf, heq, h1, h2⟩
    · exact hacc b2 ((congrArg Prod.fst heq).symm.trans hb2)
    · have hsome : some e = some b2 := (congrArg Prod.fst heq).symm.trans hb2
      exact Option.some.inj hsome ▸ hl e (List.mem_cons_self e l) h1 h2

theorem bestFlagCandidate_some (entries : List TEntry) (flagE cand : TEntry) (cnt : Nat)
    (h : bestFlagCandidate entries flagE = (some cand, cnt)) :
    cand ∈ entries ∧ cand.is_placed = false ∧ cand.connections_num > 1 := by
  refine bestFold_inv flagE
    (fun b => b ∈ entries ∧ b.is_placed = false ∧ b.connections_num > 1) entries (none, 0)
    ?_ (fun e he h1 h2 => ⟨he, h1, h2⟩) cand ?_
  · intro b hb
    exact Option.noConfusion hb
  · show (bestFlagCandidate entries flagE).1 = some cand
    rw [h]

theorem bestByConnections_inv (P : TEntry → Prop) :
    ∀ (l : List TEntry) (acc : Option TEntry),
      (∀ b, acc = some b → P b) →
      (∀ e ∈ l, e.is_placed = false → e.connections_num > 1 → P e) →
      ∀ b, l.foldl (fun best e =>
          if e.is_placed = false ∧ e.connections_num > 1 then
            match best with
            | none => some e
            | some b => if e.connections_num > b.connections_num then some e else best
          else best) acc = some b → P b := by
  have hcases : ∀ (acc : Option TEntry) (e : TEntry),
      ((fun best e =>
          if e.is_placed = false ∧ e.connections_num > 1 then
            match best with
            | none => some e
            | some b => if e.connections_num > b.connections_num then some e else best
          else best) acc e = acc) ∨
      ((fun best e =>
          if e.is_placed = false ∧ e.connections_num > 1 then
            match best with
            | none => some e
            | some b => if e.connections_num > b.connections_num then some e else best
          else best) acc e = some e ∧ e.is_placed = false ∧ e.connections_num > 1) := by
    intro acc e
    by_cases hg : e.is_placed = false ∧ e.connections_num > 1
    · dsimp only
      rw [if_pos hg]
      cases acc with
      | none => exact Or.inr ⟨rfl, hg.1, hg.2⟩
      | some b0 =>
        dsimp only
        split
        · exact Or.inr ⟨rfl, hg.1, hg.2⟩
        · exact Or.inl rfl
    · dsimp only
      rw [if_neg hg]
      exact Or.inl rfl
  intro l
  induction l with
  | nil => intro acc hacc hl b hb; exact hacc b hb
  | cons e l ih =>
    intro acc hacc hl b hb
    rw [List.foldl_cons] at hb
    refine ih _ ?_ (fun e2 he2 => hl e2 (List.mem_cons_of_mem e he2)) b hb
    intro b2 hb2
    rcases hcases acc e with heq | ⟨heq, h1, h2⟩
    · exact hacc b2 (heq.symm.trans hb2)
    · have hsome : some e = some b2 := heq.symm.trans hb2
      exact Option.some.inj hsome ▸ hl e (List.mem_cons_self e l) h1 h2

theorem bestByConnections_some (entries : List TEntry) (cand : TEntry)
    (h : bestByConnections entries = some cand) :
    cand ∈ entries ∧ cand.is_placed = false ∧ cand.connections_num > 1 := by
  refine bestByConnections_inv
    (fun b => b ∈ entries ∧ b.is_placed = false ∧ b.connections_num > 1) entries none
    ?_ (fun e he h1 h2 => ⟨he, h1, h2⟩) cand ?_
  · intro b hb
    exact Option.noConfusion hb
  · show bestByConnections entries = some cand
    exact h

theorem phaseAStep_decreases (trig : Trig) (st st1 : PlanState)
    (h : phaseAStep trig st = some st1) :
    unplacedCount st1 < unplacedCount st := by
  unfold phaseAStep at h
  cases hflag : st.flag with
  | none =>
    simp only [hflag] at h
    exact Option.noConfusion h
  | some flagName =>
    simp only [hflag] at h
    cases hfe : findEntry st.entries flagName with
    | none =>
      simp only [hfe] at h
      exact Option.noConfusion h
    | some flagE =>
      simp only [hfe] at h
      cases hbest : bestFlagCandidate st.entries flagE with
      | mk o cnt =>
        cases o with
        | none =>
          simp only [hbest] at h
          exact Option.noConfusion h
        | some cand =>
          simp only [hbest] at h
          by_cases hcnt : cnt > 0
          · rw [if_pos hcnt] at h
            have hst1 := (Option.some.inj h).symm
            obtain ⟨hc1, hc2, hc3⟩ := bestFlagCandidate_some st.entries flagE cand cnt hbest
            rw [hst1]
            exact lt_of_le_of_lt (unplacedCount_pdc_le trig cand.table_name _)
              (unplacedCount_placeTable_lt cand.table_name _ _ _ cand hc1 rfl hc2)
          · rw [if_neg hcnt] at h
            exact Option.noConfusion h

theorem phaseBStep_decreases (trig : Trig) (st st1 : PlanState)
    (h : phaseBStep trig st = some st1) :
    unplacedCount st1 < unplacedCount st := by
  unfold phaseBStep at h
  cases hbest : bestByConnections st.entries with
  | none =>
    simp only [hbest] at h
    exact Option.noConfusion h
  | some cand =>
    simp only [hbest] at h
    have hst1 := (Option.some.inj h).symm
    obtain ⟨hc1, hc2, hc3⟩ := bestByConnections_some st.entries cand hbest
    rw [hst1]
    exact lt_of_le_of_lt (unplacedCount_pdc_le trig cand.table_name _)
      (unplacedCount_placeTable_lt cand.table_name _ _ _ cand hc1 rfl hc2)

theorem phaseALoopStep_decreases (trig : Trig) (st st1 : PlanState)
    (h : phaseALoopStep trig st = some st1) :
    unplacedCount st1 < unplacedCount st := by
  unfold phaseALoopStep at h
  by_cases hcap : st.tables_placed < st.max_tables
  · rw [if_pos hcap] at h
    exact phaseAStep_decreases trig st st1 h
  · rw [if_neg hcap] at h
    exact Option.noConfusion h

theorem fuelLoop_mono (f : σ → Option σ) (μ : σ → Nat)
    (hdec : ∀ s s2, f s = some s2 → μ s2 < μ s) :
    ∀ (n : Nat) (s : σ), μ (fuelLoop f n s) ≤ μ s := by
  intro n
  induction n with
  | zero => intro s; exact le_rfl
  | succ n ih =>
    intro s
    cases hf : f s with
    | none => rw [fuelLoop_succ_none _ _ _ hf]
    | some s2 =>
      rw [fuelLoop_succ_some _ _ _ _ hf]
      exact le_trans (ih s2) (le_of_lt (hdec s s2 hf))

theorem mainLoopStep_decreases (trig : Trig) (st st1 : PlanState)
    (h : mainLoopStep trig st = some st1) :
    unplacedCount st1 < unplacedCount st := by
  unfold mainLoopStep at h
  by_cases hcap : st.tables_placed < st.max_tables
  · rw [if_pos hcap] at h
    by_cases hany : (st.entries.any
        (fun e => e.is_placed = false ∧ e.connections_num > 1)) = true
    · rw [if_pos hany] at h
      cases hflag : st.flag with
      | none =>
        simp only [hflag] at h
        rw [if_neg (by simp : ¬ (((st, false) : PlanState × Bool).2 = true))] at h
        exact phaseBStep_decreases trig st st1 h
      | some flagName =>
        simp only [hflag] at h
        cases hrun : phaseALoopStep trig st with
        | none =>
          have har : phaseARun trig st = (st, false) := by
            unfold phaseARun
            simp only [hrun]
          rw [har] at h
          rw [if_neg (by simp : ¬ (((st, false) : PlanState × Bool).2 = true))] at h
          exact phaseBStep_decreases trig st st1 h
        | some stA =>
          have har := phaseARun_some trig st stA hrun
          rw [har] at h
          rw [if_pos (rfl :
            ((fuelLoop (phaseALoopStep trig) (unplacedCount stA + 1) stA, true)).2 = true)]
            at h
          have hst1 := (Option.some.inj h).symm
          have hdecA := phaseALoopStep_decreases trig st stA hrun
          have hmono := fuelLoop_mono (phaseALoopStep trig) unplacedCount
            (fun s s2 hs => phaseALoopStep_decreases trig s s2 hs)
            (unplacedCount stA + 1) stA
          rw [hst1]
          exact lt_of_le_of_lt hmono hdecA
    · rw [if_neg hany] at h
      exact Option.noConfusion h
  · rw [if_neg hcap] at h
    exact Option.noConfusion h

theorem fuelLoop_stable (f : σ → Option σ) (μ : σ → Nat)
    (hdec : ∀ s s2, f s = some s2 → μ s2 < μ s) :
    ∀ (k : Nat) (s : σ), μ s ≤ k → ∀ n m, μ s < n → μ s < m →
      fuelLoop f n s = fuelLoop f m s := by
  intro k
  induction k with
  | zero =>
    intro s hs n m hn hm
    obtain ⟨n2, rfl⟩ : ∃ n2, n = n2 + 1 := ⟨n - 1, by omega⟩
    obtain ⟨m2, rfl⟩ : ∃ m2, m = m2 + 1 := ⟨m - 1, by omega⟩
    cases hf : f s with
    | none => rw [fuelLoop_succ_none _ _ _ hf, fuelLoop_succ_none _ _ _ hf]
    | some s2 =>
      have := hdec s s2 hf
      omega
  | succ k ih =>
    intro s hs n m hn hm
    obtain ⟨n2, rfl⟩ : ∃ n2, n = n2 + 1 := ⟨n - 1, by omega⟩
    obtain ⟨m2, rfl⟩ : ∃ m2, m = m2 + 1 := ⟨m - 1, by omega⟩
    cases hf : f s with
    | none => rw [fuelLoop_succ_none _ _ _ hf, fuelLoop_succ_none _ _ _ hf]
    | some s2 =>
      have hd := hdec s s2 hf
      rw [fuelLoop_succ_some _ _ _ _ hf, fuelLoop_succ_some _ _ _ _ hf]
      exact ih s2 (by omega) n2 m2 (by omega) (by omega)

/-- C8: the cluster-expansion `while` loops terminate.  Every iteration of
the outer Step-2 loop and of the inner Phase-A loop strictly decreases the
number of unplaced entries, so both loops stabilize after at most
`unplacedCount` iterations and the fuel the embedding supplies
(`unplacedCount + 1`) is sufficient: the result is independent of any larger
fuel.  (All other parts of the procedure — orphan rows, stacking, the ring
searches and the bottom-left scan — are structural folds over finite lists,
total by construction.) -/
theorem claim_C8_termination (trig : Trig) (st : PlanState) (n m : Nat)
    (hn : unplacedCount st < n) (hm : unplacedCount st < m) :
    fuelLoop (mainLoopStep trig) n st = fuelLoop (mainLoopStep trig) m st ∧
    fuelLoop (phaseALoopStep trig) n st = fuelLoop (phaseALoopStep trig) m st := by
  constructor
  · exact fuelLoop_stable (mainLoopStep trig) unplacedCount
      (fun s s2 h => mainLoopStep_decreases trig s s2 h)
      (unplacedCount st) st le_rfl n m hn hm
  · exact fuelLoop_stable (phaseALoopStep trig) unplacedCount
      (fun s s2 h => phaseALoopStep_decreases trig s s2 h)
      (unplacedCount st) st le_rfl n m hn hm

theorem claim_C8_termination_witness :
    (unplacedCount c7State < 2 ∧ unplacedCount c7State < 3) ∧
    (fuelLoop (mainLoopStep trigZero) 2 c7State = fuelLoop (mainLoopStep trigZero) 3 c7State ∧
     fuelLoop (phaseALoopStep trigZero) 2 c7State
       = fuelLoop (phaseALoopStep trigZero) 3 c7State) :=
  ⟨⟨by decide, by decide⟩, claim_C8_termination trigZero c7State 2 3 (by decide) (by decide)⟩

/-- C2 is false as stated: in the complete layout run on `c2G` (parent `P`
with the two single children `B1`, `B2`), `B2` is a `connections = 1` table
whose parent `P` is placed and `B2` is left-aligned with `P`, yet
`B2.y ≠ P.y + P.height`: the children form a touching *stack* and only the
first child `B1` touches the parent's bottom edge. -/
theorem claim_C2_counterexample :
    ((findEntry (position_tables_with_clustering trigZero none c2G).entries "B2").map
        (fun e => (e.connections_num, e.connected_names, e.is_placed))
      = some (1, ["P"], true)) ∧
    ((findEntry (position_tables_with_clustering trigZero none c2G).entries "P").map
        (fun e => e.is_placed) = some true) ∧
    (findTable (position_tables_with_clustering trigZero none c2G).gen "B2").x
      = (findTable (position_tables_with_clustering trigZero none c2G).gen "P").x ∧
    ¬ (findTable (position_tables_with_clustering trigZero none c2G).gen "B2").y
      = (findTable (position_tables_with_clustering trigZero none c2G).gen "P").y
        + (findTable (position_tables_with_clustering trigZero none c2G).gen "P").height := by
  refine ⟨?_, ?_, ?_, ?_⟩ <;> (set_option maxRecDepth 100000 in decide)

theorem claim_C2_child_adjacency_witness :
    (findEntry c2WState.entries "P" = some c2WPE ∧
     ¬ c2WPE.single_children = [] ∧
     directChildrenOf c2WState c2WPE ≠ [] ∧
     ("P" :: (directChildrenOf c2WState c2WPE).map TEntry.table_name).Nodup) ∧
    List.Chain' (fun a b =>
        (findTable (place_direct_children trigZero "P" c2WState).gen b).x
          = (findTable (place_direct_children trigZero "P" c2WState).gen "P").x ∧
        (findTable (place_direct_children trigZero "P" c2WState).gen b).y
          = (findTable (place_direct_children trigZero "P" c2WState).gen a).y
            + (findTable (place_direct_children trigZero "P" c2WState).gen a).height)
      ("P" :: (directChildrenOf c2WState c2WPE).map TEntry.table_name) :=
  ⟨⟨by decide, by decide, by decide, by decide⟩,
    claim_C2_child_adjacency trigZero c2WState "P" c2WPE _ (by decide) (by decide) rfl
      (by decide) (by decide) (by decide) (by decide)⟩

end SqlDesigner
